import Mathlib

/-!
Shallow embedding of the dynamic MongoDB collections API of this repository
(src/api/data.js and the earlier handler variants src/unnamed/part_001 and
src/unnamed/part_002), together with proofs about its collection-name
resolution, document location, query assembly, update semantics and response
envelope.  Documents are modelled as JSON-like trees, a collection as the
list of its documents in natural order, and each database read as a total
function over that list; possible per-call driver errors (for example cast
errors raised by a lookup) are modelled by explicit fault flags.
-/

namespace RestaurantApi

/-! ## JavaScript string and number primitives used by the handlers -/

/-- Whitespace recognised by JavaScript string trimming (ASCII subset). -/
def isJsSpace (c : Char) : Bool :=
  decide (c.toNat = 32 ∨ c.toNat = 9 ∨ c.toNat = 10 ∨ c.toNat = 13 ∨
    c.toNat = 11 ∨ c.toNat = 12)

/-- ASCII lower-casing of one character, as performed by `toLowerCase`. -/
def jsLowerChar (c : Char) : Char :=
  if 65 ≤ c.toNat ∧ c.toNat ≤ 90 then Char.ofNat (c.toNat + 32) else c

/-- Embedding of `String.prototype.toLowerCase` (ASCII range). -/
def jsToLower (s : String) : String :=
  ⟨s.data.map jsLowerChar⟩

/-- Embedding of `String.prototype.trim` on a character list. -/
def jsTrimList (l : List Char) : List Char :=
  ((l.dropWhile isJsSpace).reverse.dropWhile isJsSpace).reverse

/-- Embedding of `String.prototype.trim`. -/
def jsTrim (s : String) : String :=
  ⟨jsTrimList s.data⟩

/-- Numeric value of a list of decimal digit characters. -/
def natFromDigits (l : List Char) : Nat :=
  l.foldl (fun n c => 10 * n + (c.toNat - 48)) 0

/-- Embedding of JavaScript `parseInt(s)` (radix 10): skip leading
whitespace, read an optional sign and then the longest run of leading
digits; `none` models `NaN` (no digits found). -/
def jsParseIntOpt (s : String) : Option Int :=
  let cs := s.data.dropWhile isJsSpace
  let signAndRest : Int × List Char :=
    match cs with
    | '-' :: r => (-1, r)
    | '+' :: r => (1, r)
    | r => (1, r)
  let ds := signAndRest.2.takeWhile Char.isDigit
  if ds.isEmpty then none else some (signAndRest.1 * (natFromDigits ds : Int))

/-- Embedding of JavaScript `Number(s)` restricted to the integer literals
the handlers actually compare identifiers against: the whole trimmed string
must be an optional sign followed by digits; the empty string converts to
`0`; `none` models `NaN`. -/
def jsNumberOpt (s : String) : Option Int :=
  let cs := jsTrimList s.data
  match cs with
  | [] => some 0
  | _ =>
    let signAndRest : Int × List Char :=
      match cs with
      | '-' :: r => (-1, r)
      | '+' :: r => (1, r)
      | r => (1, r)
    if signAndRest.2 ≠ [] ∧ signAndRest.2.all Char.isDigit then
      some (signAndRest.1 * (natFromDigits signAndRest.2 : Int))
    else none

/-- Hexadecimal digit test used by the ObjectId validity check. -/
def isHexDigitChar (c : Char) : Bool :=
  c.isDigit || ('a' ≤ c && c ≤ 'f') || ('A' ≤ c && c ≤ 'F')

/-- Embedding of `mongoose.Types.ObjectId.isValid`: a 24-character
hexadecimal string, or any 12-character string. -/
def isValidObjectIdString (s : String) : Bool :=
  (s.length == 24 && s.data.all isHexDigitChar) || s.length == 12

/-- Structural character-membership test (JS `includes` on one char). -/
def strContainsChar (s : String) (c : Char) : Bool :=
  s.data.any (fun x => x == c)

/-- Structural split on a single separator character, as JS
`split(sep)` behaves for the one-character separators the handlers use. -/
def charsSplitOn (sep : Char) : List Char → List (List Char)
  | [] => [[]]
  | c :: rest =>
    let r := charsSplitOn sep rest
    if c == sep then [] :: r
    else
      match r with
      | [] => [[c]]
      | g :: gs => (c :: g) :: gs

/-- String-level wrapper of `charsSplitOn`. -/
def strSplitOnChar (s : String) (sep : Char) : List String :=
  (charsSplitOn sep s.data).map String.mk

/-- Structural prefix test (JS `startsWith`). -/
def strStartsWith (s pre : String) : Bool :=
  pre.data.isPrefixOf s.data

/-- Structural drop of leading characters (JS `substring(n)`). -/
def strDrop (s : String) (n : Nat) : String :=
  ⟨s.data.drop n⟩

/-- Text before and after the first occurrence of a marker, or `none`
when the marker does not occur. -/
def splitAtMarker (marker : List Char) : List Char → Option (List Char × List Char)
  | [] => if marker.isEmpty then some ([], []) else none
  | c :: rest =>
    if marker.isPrefixOf (c :: rest) then some ([], (c :: rest).drop marker.length)
    else
      match splitAtMarker marker rest with
      | some (pre, post) => some (c :: pre, post)
      | none => none

/-! ## The document model: dynamically typed JSON-like values -/

/-- Dynamically typed field value of a schemaless document.  `vOid` marks a
store-canonical ObjectId primary key, kept distinct from the plain string of
the same spelling, mirroring the BSON type distinction the lookups rely on. -/
inductive Val where
  | vNull : Val
  | vBool : Bool → Val
  | vNum : Int → Val
  | vStr : String → Val
  | vOid : String → Val
  | vArr : List Val → Val
  | vObj : List (String × Val) → Val

mutual

/-- Structural equality on values (BSON equality for our carrier). -/
def Val.beq : Val → Val → Bool
  | .vNull, .vNull => true
  | .vBool a, .vBool b => a == b
  | .vNum a, .vNum b => a == b
  | .vStr a, .vStr b => a == b
  | .vOid a, .vOid b => a == b
  | .vArr xs, .vArr ys => beqValList xs ys
  | .vObj xs, .vObj ys => beqFieldList xs ys
  | _, _ => false

/-- Elementwise equality of value lists. -/
def beqValList : List Val → List Val → Bool
  | [], [] => true
  | x :: xs, y :: ys => Val.beq x y && beqValList xs ys
  | _, _ => false

/-- Entrywise equality of field lists. -/
def beqFieldList : List (String × Val) → List (String × Val) → Bool
  | [], [] => true
  | (k, v) :: xs, (k', v') :: ys => k == k' && Val.beq v v' && beqFieldList xs ys
  | _, _ => false

end

instance : BEq Val := ⟨Val.beq⟩

/-- JavaScript truthiness of a value (used by the filter-merge branch). -/
def jsFalsy : Val → Bool
  | .vNull => true
  | .vBool b => !b
  | .vNum n => n == 0
  | .vStr s => s == ""
  | _ => false

mutual

/-- Embedding of JavaScript `String(v)` for the values the nested scan
compares: scalars print canonically, arrays join their elements with commas
and plain objects print as `[object Object]`. -/
def jsStringOfVal : Val → String
  | .vNull => "null"
  | .vBool b => if b then "true" else "false"
  | .vNum n => toString n
  | .vStr s => s
  | .vOid s => s
  | .vArr xs => jsStringOfValList xs
  | .vObj _ => "[object Object]"

def jsStringOfValList : List Val → String
  | [] => ""
  | [x] => jsStringOfVal x
  | x :: xs => jsStringOfVal x ++ "," ++ jsStringOfValList xs

end

/-- A stored document: a finite mapping from field names to values. -/
abbrev Doc := List (String × Val)

/-- Raw HTTP query parameters (name/value pairs, values as strings). -/
abbrev Query := List (String × String)

/-- Reading a field of a document (`undefined` is `none`). -/
def getField (d : Doc) (k : String) : Option Val :=
  List.lookup k d

/-- JavaScript object property assignment `obj[k] = v`: replace the value
at an existing key, otherwise append the new entry. -/
def setField (d : List (String × Val)) (k : String) (v : Val) : List (String × Val) :=
  if d.any (fun kv => kv.1 == k) then
    d.map (fun kv => if kv.1 == k then (kv.1, v) else kv)
  else d ++ [(k, v)]

/-- Scalar equality match of a stored value against a query literal, as the
store's equality predicate behaves on the scalar literals these handlers
query with. -/
def scalarEq (target stored : Val) : Bool :=
  match target, stored with
  | .vNull, .vNull => true
  | .vBool a, .vBool b => a == b
  | .vNum a, .vNum b => a == b
  | .vStr a, .vStr b => a == b
  | .vOid a, .vOid b => a == b
  | _, _ => false

/-- Embedding of `model.findOne({ field: target })` over the collection's
documents in natural order. -/
def findOneField (coll : List Doc) (field : String) (target : Val) : Option Doc :=
  coll.find? (fun d =>
    match getField d field with
    | some w => scalarEq target w
    | none => false)

/-- First hit of a sequence of already-computed lookups, mirroring the
`if (doc) return doc` fall-through chains of the handlers. -/
def firstSome {α : Type} : List (Option α) → Option α
  | [] => none
  | o :: rest =>
    match o with
    | some a => some a
    | none => firstSome rest

/-! ## A small JSON reader standing in for `JSON.parse`

The handlers call `JSON.parse` on operator values and aggregation pipelines.
The reader below covers the literals those call sites feed it: `null`,
booleans, integer numbers, strings with simple escapes, arrays and objects;
anything else is a parse failure, which the callers catch. -/

/-- Leading-whitespace removal for the JSON reader. -/
def skipWs (cs : List Char) : List Char := cs.dropWhile isJsSpace

/-- String-literal body reader; returns the decoded text and the remainder
after the closing quote. -/
def parseJsonStringBody : List Char → List Char → Option (String × List Char)
  | [], _ => none
  | '\\' :: c :: rest, acc =>
    let decoded : Char :=
      if c == 'n' then '\n' else if c == 't' then '\t'
      else if c == 'r' then '\r' else c
    parseJsonStringBody rest (decoded :: acc)
  | '"' :: rest, acc => some (⟨acc.reverse⟩, rest)
  | c :: rest, acc => parseJsonStringBody rest (c :: acc)

/-- Integer-literal reader (optional minus sign, one or more digits). -/
def parseJsonNumber (cs : List Char) : Option (Int × List Char) :=
  let signAndRest : Int × List Char :=
    match cs with
    | '-' :: r => (-1, r)
    | r => (1, r)
  let ds := signAndRest.2.takeWhile Char.isDigit
  if ds.isEmpty then none
  else some (signAndRest.1 * (natFromDigits ds : Int), signAndRest.2.drop ds.length)

mutual

/-- Fueled JSON value reader. -/
def parseJsonVal : Nat → List Char → Option (Val × List Char)
  | 0, _ => none
  | fuel + 1, cs =>
    match skipWs cs with
    | 'n' :: 'u' :: 'l' :: 'l' :: rest => some (.vNull, rest)
    | 't' :: 'r' :: 'u' :: 'e' :: rest => some (.vBool true, rest)
    | 'f' :: 'a' :: 'l' :: 's' :: 'e' :: rest => some (.vBool false, rest)
    | '"' :: rest =>
      match parseJsonStringBody rest [] with
      | some (s, rest') => some (.vStr s, rest')
      | none => none
    | '[' :: rest =>
      (match skipWs rest with
       | ']' :: rest' => some (.vArr [], rest')
       | _ =>
         match parseJsonElems fuel rest with
         | some (xs, rest') => some (.vArr xs, rest')
         | none => none)
    | c :: rest =>
      if c.toNat == 123 then
        match skipWs rest with
        | c' :: rest' =>
          if c'.toNat == 125 then some (.vObj [], rest')
          else
            (match parseJsonMembers fuel (c' :: rest') with
             | some (fs, rest'') => some (.vObj fs, rest'')
             | none => none)
        | [] => none
      else
        match parseJsonNumber (c :: rest) with
        | some (n, rest') => some (.vNum n, rest')
        | none => none
    | [] => none

/-- Fueled reader for the comma-separated elements of a JSON array. -/
def parseJsonElems : Nat → List Char → Option (List Val × List Char)
  | 0, _ => none
  | fuel + 1, cs =>
    match parseJsonVal fuel cs with
    | none => none
    | some (v, rest) =>
      match skipWs rest with
      | ',' :: rest' =>
        (match parseJsonElems fuel rest' with
         | some (xs, rest'') => some (v :: xs, rest'')
         | none => none)
      | ']' :: rest' => some ([v], rest')
      | _ => none

/-- Fueled reader for the comma-separated members of a JSON object. -/
def parseJsonMembers : Nat → List Char → Option (List (String × Val) × List Char)
  | 0, _ => none
  | fuel + 1, cs =>
    match skipWs cs with
    | '"' :: rest =>
      (match parseJsonStringBody rest [] with
       | none => none
       | some (k, rest') =>
         match skipWs rest' with
         | ':' :: rest'' =>
           (match parseJsonVal fuel rest'' with
            | none => none
            | some (v, rest3) =>
              match skipWs rest3 with
              | ',' :: rest4 =>
                (match parseJsonMembers fuel rest4 with
                 | some (fs, rest5) => some ((k, v) :: fs, rest5)
                 | none => none)
              | c :: rest4 =>
                if c.toNat == 125 then some ([(k, v)], rest4) else none
              | [] => none)
         | _ => none)
    | _ => none

end

/-- Embedding of `JSON.parse` (restricted as described above); `none`
models a thrown `SyntaxError`. -/
def jsonParse (s : String) : Option Val :=
  match parseJsonVal (s.length + 1) s.data with
  | some (v, rest) => if skipWs rest = [] then some v else none
  | none => none

/-! ## Response envelope of src/api/data.js (`sendJson`, lines 28-46) -/

/-- Shape of the JSON body every response of the enhanced handler carries. -/
structure ApiEnvelope where
  success : Bool
  dataField : Option Val
  errorField : Option Val
  meta : List (String × Val)

/-- Embedding of the object literal `{ timestamp, ...meta }`: keys of the
spread override the base entry, later spread keys override earlier ones. -/
def mergeMeta (base extra : List (String × Val)) : List (String × Val) :=
  extra.foldl (fun acc kv => setField acc kv.1 kv.2) base

/-- Embedding of `sendJson(res, status, payload, meta)` from
src/api/data.js: the success flag is `status < 400`; on failure the payload
moves from `data` to `error`; the meta block is the ISO timestamp merged
with the caller's extra metadata. -/
def sendJson (status : Nat) (payload : Val) (isoNow : String)
    (extraMeta : List (String × Val)) : ApiEnvelope :=
  let meta := mergeMeta [("timestamp", Val.vStr isoNow)] extraMeta
  if status < 400 then
    { success := true, dataField := some payload, errorField := none, meta := meta }
  else
    { success := false, dataField := none, errorField := some payload, meta := meta }

/-! ## Collection-name resolution (src/api/data.js, lines 48-59) -/

/-- Character class of the regex body `[a-z0-9_-]`. -/
def isCollBodyChar (c : Char) : Bool :=
  ('a' ≤ c && c ≤ 'z') || c.isDigit || c == '_' || c == '-'

/-- Embedding of the test against `/^[a-z][a-z0-9_-]{0,63}$/i` on the
already lower-cased candidate. -/
def matchesCollectionPattern (s : String) : Bool :=
  match s.data with
  | [] => false
  | c :: rest => ('a' ≤ c && c ≤ 'z') && rest.length ≤ 63 && rest.all isCollBodyChar

/-- Reserved starts from `CONFIG.SYSTEM_COLLECTIONS`. -/
def hasReservedStart (s : String) : Bool :=
  ["system.", "admin.", "__"].any (fun sys => strStartsWith s sys)

/-- Embedding of `sanitizeCollectionName` from src/api/data.js: trim and
lower-case, validate against the restrictive pattern, and reject reserved
system names; `none` models the `null` that maps to a 400 response. -/
def sanitizeCollectionName (name : String) : Option String :=
  if name == "" then none
  else
    let sanitized := jsToLower (jsTrim name)
    if !matchesCollectionPattern sanitized then none
    else if hasReservedStart sanitized then none
    else some sanitized

/-- Cache key of `getModelForCollection` from src/api/data.js, line 127. -/
def modelCacheKey (collectionName : String) (customSchema : Bool) : String :=
  collectionName ++ "_" ++ (if customSchema then "custom" else "default")

/-! ## Query assembly (src/api/data.js `parseQueryFilters`, lines 61-124) -/

/-- Options block assembled by `parseQueryFilters`. -/
structure FindOptions where
  limit : Int
  skip : Int
  sort : List (String × Int)
  selectFields : Option String
  populateSpec : Option String

/-- Lookup of a raw query parameter. -/
def lookupParam (q : Query) (k : String) : Option String :=
  List.lookup k q

/-- Embedding of `x || dflt` applied to a `parseInt` result: both `NaN`
and `0` are falsy and yield the default. -/
def falsyOr (o : Option Int) (dflt : Int) : Int :=
  match o with
  | some n => if n == 0 then dflt else n
  | none => dflt

/-- Reserved names skipped by the filter loop of `parseQueryFilters`. -/
def reservedFilterKeys : List String :=
  ["limit", "skip", "sort", "select", "populate", "collection", "id", "slug"]

/-- Operator allow-list `CONFIG.ALLOWED_OPERATORS`. -/
def allowedOperators : List String :=
  ["$eq", "$ne", "$gt", "$gte", "$lt", "$lte", "$in", "$nin", "$regex", "$exists"]

/-- Value coercion of the plain-equality branch: the literals `true` and
`false` become booleans, fully numeric strings become numbers, a
comma-bearing value becomes a membership filter, anything else stays a
string. -/
def coerceEqVal (s : String) : Val :=
  if s == "true" then .vBool true
  else if s == "false" then .vBool false
  else if (jsNumberOpt s).isSome && s != "" then .vNum ((jsNumberOpt s).getD 0)
  else if strContainsChar s ',' then
    .vObj [("$in", .vArr ((strSplitOnChar s ',').map Val.vStr))]
  else .vStr s

/-- Value coercion of the operator branch: values that look like JSON
(arrays, objects, booleans, numbers) go through `JSON.parse`, kept as the
raw string when parsing fails. -/
def coerceOpVal (s : String) : Val :=
  if strStartsWith s "[" || strStartsWith s "\x7b" || s == "true" || s == "false"
      || (jsNumberOpt s).isSome then
    match jsonParse s with
    | some v => v
    | none => .vStr s
  else .vStr s

/-- Embedding of `if (!filters[field]) filters[field] = {};
filters[field][op] = value`, executed in strict mode (the handlers are ES
modules): a missing or falsy entry is replaced by a fresh operator object;
an existing object entry gains the operator; assignment onto an array or
ObjectId object succeeds without altering the serialised filter; but
assignment onto a truthy primitive entry throws a `TypeError` (modelled as
`.error ()`), which no surrounding catch intercepts before the handler's
top-level 500. -/
def addOpFilter (fs : List (String × Val)) (field op : String) (v : Val) :
    Except Unit (List (String × Val)) :=
  match List.lookup field fs with
  | none => .ok (setField fs field (Val.vObj [(op, v)]))
  | some existing =>
    if jsFalsy existing then .ok (setField fs field (Val.vObj [(op, v)]))
    else
      match existing with
      | .vObj entries => .ok (setField fs field (Val.vObj (setField entries op v)))
      | .vArr _ => .ok fs
      | .vOid _ => .ok fs
      | _ => .error ()

/-- Per-key step of the filter loop of `parseQueryFilters`; the operator
branch can raise the strict-mode `TypeError` of `addOpFilter`. -/
def processFilterKey (fs : List (String × Val)) (k v : String) :
    Except Unit (List (String × Val)) :=
  if reservedFilterKeys.contains k then .ok fs
  else if strContainsChar k '.' then
    match strSplitOnChar k '.' with
    | field :: op :: _ =>
      if allowedOperators.contains ("$" ++ op) then
        addOpFilter fs field ("$" ++ op) (coerceOpVal v)
      else .ok fs
    | _ => .ok fs
  else .ok (setField fs k (coerceEqVal v))

/-- Fallible left fold of the filter loop: a thrown `TypeError` aborts the
whole `parseQueryFilters` call. -/
def foldFilterKeys (fs : List (String × Val)) :
    Query → Except Unit (List (String × Val))
  | [] => .ok fs
  | kv :: rest =>
    match processFilterKey fs kv.1 kv.2 with
    | .error e => .error e
    | .ok fs2 => foldFilterKeys fs2 rest

/-- Upsert into the sort specification object. -/
def upsertSort (l : List (String × Int)) (k : String) (v : Int) :
    List (String × Int) :=
  if l.any (fun kv => kv.1 == k) then
    l.map (fun kv => if kv.1 == k then (kv.1, v) else kv)
  else l ++ [(k, v)]

/-- Embedding of the sort-parsing loop: comma-split, trim, and a leading
minus means descending. -/
def parseSortSpec (s : String) : List (String × Int) :=
  (strSplitOnChar s ',').foldl
    (fun acc field =>
      let trimmed := jsTrim field
      if strStartsWith trimmed "-" then upsertSort acc (strDrop trimmed 1) (-1)
      else upsertSort acc trimmed 1)
    []

/-- Embedding of `parseQueryFilters` from src/api/data.js: pagination
window, sort specification, projection and the filter predicate.  The
options are assembled before the filter loop and never throw; the filter
component carries the strict-mode `TypeError` the loop can raise, which
the caller surfaces as a 500 response. -/
def parseQueryFilters (q : Query) :
    (Except Unit (List (String × Val))) × FindOptions :=
  let limit := min (falsyOr ((lookupParam q "limit").bind jsParseIntOpt) 100) 1000
  let skip := max (falsyOr ((lookupParam q "skip").bind jsParseIntOpt) 0) 0
  let sort :=
    match lookupParam q "sort" with
    | some s => if s == "" then [] else parseSortSpec s
    | none => []
  let selectFields :=
    match lookupParam q "select" with
    | some s => if s == "" then none else some s
    | none => none
  let populateSpec :=
    match lookupParam q "populate" with
    | some s => if s == "" then none else some s
    | none => none
  let filters := foldFilterKeys [] q
  (filters,
   { limit := limit, skip := skip, sort := sort,
     selectFields := selectFields, populateSpec := populateSpec })

/-! ## Query assembly of the earlier variant (src/unnamed/part_002,
`buildFilterFromQuery`, lines 112-138) -/

/-- Query parameters as the framework hands them to the earlier variant:
values may be strings or the nested objects produced by bracketed
parameters. -/
abbrev QueryV := List (String × Val)

/-- Excluded names of `buildFilterFromQuery`. -/
def excludedParamsP2 : List String :=
  ["collection", "id", "action", "limit", "skip", "sort", "fields", "populate"]

/-- Fallible fold of `filter[field][operator] = fieldValuePairs[field]`
over the field/value pairs of one `$`-prefixed parameter. -/
def addOpEntriesFold (op : String) (flt : List (String × Val)) :
    List (String × Val) → Except Unit (List (String × Val))
  | [] => .ok flt
  | e :: rest =>
    match addOpFilter flt e.1 op e.2 with
    | .error err => .error err
    | .ok flt2 => addOpEntriesFold op flt2 rest

/-- Per-key step of the `forEach` body of `buildFilterFromQuery`: reserved
names are skipped, a `$`-prefixed key with an object value spreads the
operator over its field/value pairs (each assignment may raise the
strict-mode `TypeError`), and every other key is a plain equality filter
with its raw value. -/
def p2FilterStep (flt : List (String × Val)) (k : String) (v : Val) :
    Except Unit (List (String × Val)) :=
  if excludedParamsP2.contains k then .ok flt
  else if strStartsWith k "$" then
    match v with
    | .vObj entries => addOpEntriesFold k flt entries
    | .vArr xs => addOpEntriesFold k flt (xs.enum.map (fun iv => (toString iv.1, iv.2)))
    | _ => .ok flt
  else .ok (setField flt k v)

/-- Fallible fold of the `buildFilterFromQuery` loop. -/
def p2Fold (flt : List (String × Val)) : QueryV → Except Unit (List (String × Val))
  | [] => .ok flt
  | kv :: rest =>
    match p2FilterStep flt kv.1 kv.2 with
    | .error e => .error e
    | .ok f2 => p2Fold f2 rest

/-- Embedding of `buildFilterFromQuery` from src/unnamed/part_002; a
thrown `TypeError` escapes to the handler's top-level 500. -/
def buildFilterFromQuery (q : QueryV) : Except Unit (List (String × Val)) :=
  p2Fold [] q

/-! ## Flexible document lookup of src/unnamed/part_002
(`findDocumentById`, lines 92-109) -/

/-- Candidate identifier fields of `findDocumentById`, in source order. -/
def idLookupFields : List String :=
  ["_id", "id", "slug", "uuid", "email", "username"]

/-- Embedding of `findDocumentById` from src/unnamed/part_002: an ObjectId
lookup when the identifier has valid ObjectId form, then one `findOne` per
candidate field with the identifier as the given string, first hit wins. -/
def findDocumentById (coll : List Doc) (idValue : String) : Option Doc :=
  if idValue == "" then none
  else
    match
      (if isValidObjectIdString idValue then findOneField coll "_id" (Val.vOid idValue)
       else none) with
    | some d => some d
    | none =>
      firstSome (idLookupFields.map (fun f => findOneField coll f (Val.vStr idValue)))

/-! ## Flexible document lookup of src/api/data.js (`findByIdFlexible`,
lines 194-220)

Each strategy is one database lookup; the driver may reject a call (for
example with a cast error), which the source swallows with `try/catch`.
A list of fault flags says which strategy's call errors; the document
outcome of a non-faulting call is the pure lookup over the collection. -/

/-- Pure outcomes of the six identity strategies, in source order. -/
def dataStrategies (coll : List Doc) (idValue : String) : List (Option Doc) :=
  [ (if isValidObjectIdString idValue then findOneField coll "_id" (Val.vOid idValue)
     else none)
  , findOneField coll "_id" (Val.vStr idValue)
  , (match jsNumberOpt idValue with
     | some n => findOneField coll "id" (Val.vNum n)
     | none => none)
  , findOneField coll "id" (Val.vStr idValue)
  , findOneField coll "uuid" (Val.vStr idValue)
  , findOneField coll "slug" (Val.vStr idValue) ]

/-- Strategy outcomes with injected driver faults: a flagged strategy's
call raises instead of answering. -/
def dataOutcomes (coll : List Doc) (idValue : String) (faults : List Bool) :
    List (Except Unit (Option Doc)) :=
  (dataStrategies coll idValue).enum.map
    (fun io => if faults.getD io.1 false then .error () else .ok io.2)

/-- Embedding of the `for (const strategy of strategies)` loop with its
`try { if (result) return result } catch { continue }` body. -/
def runStrategies : List (Except Unit (Option Doc)) → Option Doc
  | [] => none
  | o :: rest =>
    match o with
    | .ok (some d) => some d
    | _ => runStrategies rest

/-- Embedding of `findByIdFlexible` from src/api/data.js. -/
def findByIdFlexible (coll : List Doc) (idValue : String) (faults : List Bool) :
    Option Doc :=
  runStrategies (dataOutcomes coll idValue faults)

/-! ## Flexible document lookup of src/unnamed/part_001
(`findByIdFlexible`, lines 94-157), with its recursive nested scan -/

/-- Result shape of the part_001 locator: stages 1-3 and 5 yield a single
document, stage 4 yields the list of matched nested objects. -/
inductive LocateResult where
  | single : Doc → LocateResult
  | many : List Val → LocateResult

/-- Loose value comparison of the nested scan:
`String(v) === String(idValue) || (idQueryNumber !== undefined && v === idQueryNumber)`. -/
def matchesIdNested (idValue : String) (idNum : Option Int) (v : Val) : Bool :=
  jsStringOfVal v == idValue ||
    (match idNum, v with
     | some n, .vNum m => m == n
     | _, _ => false)

/-- Test for `v && (typeof v === 'object' || Array.isArray(v))`. -/
def isObjOrArrVal : Val → Bool
  | .vArr _ => true
  | .vObj _ => true
  | _ => false

mutual

/-- Embedding of `searchRecursive` from src/unnamed/part_001: walk a value
tree; inside each object, a key named `id` or `id2` whose value loosely
matches the identifier pushes the containing object, and object or array
field values are recursed into. -/
def searchRecursive (idValue : String) (idNum : Option Int) : Val → List Val
  | .vArr xs => searchRecursiveList idValue idNum xs
  | .vObj fs => searchRecursiveFields idValue idNum (.vObj fs) fs
  | _ => []

/-- Scan of the elements of an array value. -/
def searchRecursiveList (idValue : String) (idNum : Option Int) :
    List Val → List Val
  | [] => []
  | x :: xs =>
    searchRecursive idValue idNum x ++ searchRecursiveList idValue idNum xs

/-- Scan of the entries of an object value; `parent` is the object itself,
pushed once per matching `id`/`id2` entry. -/
def searchRecursiveFields (idValue : String) (idNum : Option Int)
    (parent : Val) : List (String × Val) → List Val
  | [] => []
  | (k, v) :: rest =>
    (if (k == "id" || k == "id2") && matchesIdNested idValue idNum v then [parent]
     else [])
      ++ (if isObjOrArrVal v then searchRecursive idValue idNum v else [])
      ++ searchRecursiveFields idValue idNum parent rest

end

/-- Predicate of the queries `{ $or: [{ f: idValue }, { f: idQueryNumber }] }`
for `f` being `id` or `id2`; the numeric branch participates only when the
numeric conversion is not `NaN`. -/
def orIdPred (field idValue : String) (idNum : Option Int) (d : Doc) : Bool :=
  (match getField d field with
   | some w => scalarEq (.vStr idValue) w
   | none => false) ||
  (match idNum with
   | some n =>
     (match getField d field with
      | some w => scalarEq (.vNum n) w
      | none => false)
   | none => false)

/-- Fault injection for one database call site. -/
def callSite {α : Type} (faults : List Bool) (i : Nat) (v : α) : Except Unit α :=
  if faults.getD i false then .error () else .ok v

/-- Nested-scan results over the bounded cursor `find({}).limit(1000)`. -/
def scanResults (coll : List Doc) (idValue : String) : List Val :=
  ((coll.take 1000).map
    (fun d => searchRecursive idValue (jsNumberOpt idValue) (Val.vObj d))).flatten

/-- Embedding of `findByIdFlexible` from src/unnamed/part_001.  The five
database call sites are numbered 0-4 in source order; this variant has no
per-stage `try/catch`, so a faulting call aborts the whole lookup with the
error instead of falling through. -/
def findByIdFlexibleV1F (coll : List Doc) (idValue : String)
    (faults : List Bool) : Except Unit (Option LocateResult) :=
  let idNum := jsNumberOpt idValue
  let stage2 : Except Unit (Option LocateResult) :=
    match callSite faults 1 (findOneField coll "_id" (.vStr idValue)) with
    | .error e => .error e
    | .ok (some d) => .ok (some (.single d))
    | .ok none =>
      match callSite faults 2 (coll.find? (orIdPred "id" idValue idNum)) with
      | .error e => .error e
      | .ok (some d) => .ok (some (.single d))
      | .ok none =>
        match callSite faults 3 (coll.take 1000) with
        | .error e => .error e
        | .ok docs =>
          let results :=
            (docs.map (fun d => searchRecursive idValue idNum (Val.vObj d))).flatten
          if !results.isEmpty then .ok (some (.many results))
          else
            match callSite faults 4 (coll.find? (orIdPred "id2" idValue idNum)) with
            | .error e => .error e
            | .ok (some d) => .ok (some (.single d))
            | .ok none => .ok none
  if isValidObjectIdString idValue then
    match callSite faults 0 (findOneField coll "_id" (.vOid idValue)) with
    | .error e => .error e
    | .ok (some d) => .ok (some (.single d))
    | .ok none => stage2
  else stage2

/-- Fault-free run of the part_001 locator. -/
def findByIdFlexibleV1 (coll : List Doc) (idValue : String) :
    Option LocateResult :=
  match findByIdFlexibleV1F coll idValue [] with
  | .ok r => r
  | .error _ => none

/-! ## Evaluation of assembled filter predicates

The GET list/count/distinct routes hand the assembled predicate to the
store.  The evaluator below implements the store's matching for the
operator set the assembler can emit (`$regex` restricted to the literal
substring patterns used here). -/

/-- Literal substring check used for the `$regex` patterns the assembler
can emit. -/
def hasSubList (pat : List Char) : List Char → Bool
  | [] => pat.isEmpty
  | c :: rest => pat.isPrefixOf (c :: rest) || hasSubList pat rest

/-- One operator condition against the (possibly missing) stored value. -/
def matchOpEntry (op : String) (arg : Val) (stored : Option Val) : Bool :=
  if op == "$eq" then
    (match stored with
     | some w => scalarEq arg w
     | none => arg == Val.vNull)
  else if op == "$ne" then
    !(match stored with
      | some w => scalarEq arg w
      | none => arg == Val.vNull)
  else if op == "$gt" then
    (match stored, arg with
     | some (.vNum w), .vNum a => a < w
     | some (.vStr w), .vStr a => a < w
     | _, _ => false)
  else if op == "$gte" then
    (match stored, arg with
     | some (.vNum w), .vNum a => a ≤ w
     | some (.vStr w), .vStr a => a ≤ w
     | _, _ => false)
  else if op == "$lt" then
    (match stored, arg with
     | some (.vNum w), .vNum a => w < a
     | some (.vStr w), .vStr a => w < a
     | _, _ => false)
  else if op == "$lte" then
    (match stored, arg with
     | some (.vNum w), .vNum a => w ≤ a
     | some (.vStr w), .vStr a => w ≤ a
     | _, _ => false)
  else if op == "$in" then
    (match stored, arg with
     | some w, .vArr xs => xs.any (fun x => scalarEq x w)
     | _, _ => false)
  else if op == "$nin" then
    !(match stored, arg with
      | some w, .vArr xs => xs.any (fun x => scalarEq x w)
      | _, _ => false)
  else if op == "$exists" then
    stored.isSome == !(jsFalsy arg)
  else if op == "$regex" then
    (match stored, arg with
     | some (.vStr s), .vStr p => hasSubList p.data s.data
     | _, _ => false)
  else false

/-- One filter condition: an all-operator object applies each operator,
any other value is an equality match (`null` also matches a missing
field). -/
def matchCond (cond : Val) (stored : Option Val) : Bool :=
  match cond with
  | .vObj entries =>
    if !entries.isEmpty && entries.all (fun e => e.1.startsWith "$") then
      entries.all (fun e => matchOpEntry e.1 e.2 stored)
    else
      (match stored with
       | some w => Val.beq w (.vObj entries)
       | none => false)
  | c =>
    (match stored with
     | some w => scalarEq c w
     | none => c == Val.vNull)

/-- Document-level filter evaluation. -/
def matchesFilter (flt : List (String × Val)) (d : Doc) : Bool :=
  flt.all (fun fc => matchCond fc.2 (getField d fc.1))

/-- Embedding of `Model.countDocuments(filters)`. -/
def countDocuments (coll : List Doc) (flt : List (String × Val)) : Nat :=
  (coll.filter (matchesFilter flt)).length

/-- Deduplication by structural equality, used by `distinct`. -/
def dedupVals (vs : List Val) : List Val :=
  vs.foldl (fun acc v => if acc.any (fun w => Val.beq w v) then acc else acc ++ [v]) []

/-- Embedding of `Model.distinct(field, filters)`: the deduplicated field
values of matching documents, with array values flattened one level. -/
def distinctValues (coll : List Doc) (field : String)
    (flt : List (String × Val)) : List Val :=
  dedupVals
    ((coll.filter (matchesFilter flt)).foldl
      (fun acc d =>
        match getField d field with
        | some (.vArr xs) => acc ++ xs
        | some v => acc ++ [v]
        | none => acc)
      [])

/-! ## Route parameter extraction (src/api/data.js
`extractCollectionInfo`, lines 159-192) -/

/-- JavaScript truthiness of an optional string parameter. -/
def jsTruthyStrOpt : Option String → Bool
  | some s => s ≠ ""
  | none => false

/-- Extracted routing information. -/
structure CollInfo where
  collection : Option String
  idParam : Option String
  action : Option String

/-- Path fallback of method 4: the segments captured by
`/\/api\/collections\/([^\/]+)(?:\/([^\/\?]+))?(?:\/([^\/\?]+))?/`. -/
def parsePathSegs (url : String) : Option (String × Option String × Option String) :=
  match splitAtMarker "/api/collections/".data url.data with
  | none => none
  | some (_, s) =>
    let seg1 := s.takeWhile (fun c => c ≠ '/')
    if seg1.isEmpty then none
    else
      let rest1 := s.drop seg1.length
      match rest1 with
      | '/' :: r1 =>
        let seg2 := r1.takeWhile (fun c => c ≠ '/' && c ≠ '?')
        if seg2.isEmpty then some (⟨seg1⟩, none, none)
        else
          match r1.drop seg2.length with
          | '/' :: r2 =>
            let seg3 := r2.takeWhile (fun c => c ≠ '/' && c ≠ '?')
            if seg3.isEmpty then some (⟨seg1⟩, some ⟨seg2⟩, none)
            else some (⟨seg1⟩, some ⟨seg2⟩, some ⟨seg3⟩)
          | _ => some (⟨seg1⟩, some ⟨seg2⟩, none)
      | _ => some (⟨seg1⟩, none, none)

/-- Embedding of `extractCollectionInfo` from src/api/data.js: query
parameters first (without any action), then the wildcard slug route, then
the manual path parse. -/
def extractCollectionInfo (queryCollection queryId : Option String)
    (querySlug : Option (List String)) (url : String) : CollInfo :=
  if jsTruthyStrOpt queryCollection then
    { collection := queryCollection, idParam := queryId, action := none }
  else
    match querySlug with
    | some slug =>
      { collection := slug.get? 0, idParam := slug.get? 1, action := slug.get? 2 }
    | none =>
      match parsePathSegs url with
      | some (c, i, a) => { collection := some c, idParam := i, action := a }
      | none => { collection := none, idParam := none, action := none }

/-! ## The GET branch of the enhanced handler (src/api/data.js,
lines 338-408) -/

/-- Results a GET request can produce. -/
inductive ApiResult where
  | docR : Doc → ApiResult
  | notFoundR : String → ApiResult
  | badRequestR : String → ApiResult
  | countR : Nat → ApiResult
  | distinctR : String → List Val → ApiResult
  | aggregateR : Val → ApiResult
  | listR : List Doc → Nat → ApiResult
  | serverErrorR : ApiResult

/-- HTTP status carried by each GET result. -/
def statusOf : ApiResult → Nat
  | .docR _ => 200
  | .notFoundR _ => 404
  | .badRequestR _ => 400
  | .countR _ => 200
  | .distinctR _ _ => 200
  | .aggregateR _ => 200
  | .listR _ _ => 200
  | .serverErrorR => 500

/-- Simple BSON-flavoured type rank for sorting. -/
def valTypeRank : Option Val → Nat
  | none => 0
  | some .vNull => 1
  | some (.vNum _) => 2
  | some (.vStr _) => 3
  | some (.vObj _) => 4
  | some (.vArr _) => 5
  | some (.vOid _) => 6
  | some (.vBool _) => 7

/-- Ascending comparison of optional field values. -/
def valOrdLe (a b : Option Val) : Bool :=
  if valTypeRank a ≠ valTypeRank b then valTypeRank a ≤ valTypeRank b
  else
    match a, b with
    | some (.vNum x), some (.vNum y) => x ≤ y
    | some (.vStr x), some (.vStr y) => x ≤ y
    | some (.vOid x), some (.vOid y) => x ≤ y
    | some (.vBool x), some (.vBool y) => !x || y
    | _, _ => true

/-- Optional-value equality via structural equality. -/
def valEqOpt (a b : Option Val) : Bool :=
  match a, b with
  | some x, some y => Val.beq x y
  | none, none => true
  | _, _ => false

/-- Document order induced by a sort specification: earlier fields
dominate, later fields break ties, a negative direction reverses. -/
def docLeBySort (spec : List (String × Int)) (d1 d2 : Doc) : Bool :=
  match spec with
  | [] => true
  | (f, dir) :: rest =>
    let a := getField d1 f
    let b := getField d2 f
    if valEqOpt a b then docLeBySort rest d1 d2
    else if 0 ≤ dir then valOrdLe a b else valOrdLe b a

/-- Ordered insertion for the sort below. -/
def insertSorted (le : Doc → Doc → Bool) (d : Doc) : List Doc → List Doc
  | [] => [d]
  | x :: xs => if le x d then x :: insertSorted le d xs else d :: x :: xs

/-- Insertion sort by a sort specification. -/
def sortDocs (spec : List (String × Int)) (l : List Doc) : List Doc :=
  l.foldr (insertSorted (docLeBySort spec)) []

/-- Field projection of `query.select(...)` for a space-separated field
string: leading-minus tokens exclude fields, otherwise only the listed
fields (plus `_id`) are kept. -/
def projectDoc (s : String) (d : Doc) : Doc :=
  let tokens := (strSplitOnChar s ' ').filter (fun t => t ≠ "")
  if tokens.any (fun t => strStartsWith t "-") then
    d.filter (fun kv => !(tokens.contains ("-" ++ kv.1)))
  else
    d.filter (fun kv => kv.1 == "_id" || tokens.contains kv.1)

/-- Embedding of the GET switch arm of the enhanced handler.  The
surrounding handler runs `parseQueryFilters` before the method switch
(src/api/data.js line 335), so a strict-mode `TypeError` raised by the
filter loop answers 500 before the id route or the action switch ever
runs; otherwise the id route comes first, then the special actions (an
unknown action falls through), then the filtered, sorted, projected and
paginated listing with its total. -/
def handleGet (coll : List Doc) (idOpt actionOpt : Option String) (q : Query) :
    ApiResult :=
  match (parseQueryFilters q).1 with
  | .error _ => .serverErrorR
  | .ok filters =>
  let options := (parseQueryFilters q).2
  let listRoute : ApiResult :=
    let filtered := coll.filter (matchesFilter filters)
    let sorted := if options.sort ≠ [] then sortDocs options.sort filtered else filtered
    let projected :=
      match options.selectFields with
      | some s => sorted.map (projectDoc s)
      | none => sorted
    let paged := (projected.drop options.skip.toNat).take options.limit.natAbs
    .listR paged filtered.length
  if jsTruthyStrOpt idOpt then
    match findByIdFlexible coll (idOpt.getD "") [] with
    | some d => .docR d
    | none =>
      .notFoundR ("Document with id " ++ idOpt.getD "" ++ " not found")
  else if jsTruthyStrOpt actionOpt then
    if actionOpt.getD "" == "count" then .countR (countDocuments coll filters)
    else if actionOpt.getD "" == "distinct" then
      (if jsTruthyStrOpt (lookupParam q "field") then
        .distinctR ((lookupParam q "field").getD "")
          (distinctValues coll ((lookupParam q "field").getD "") filters)
      else .badRequestR "Field parameter required for distinct operation")
    else if actionOpt.getD "" == "aggregate" then
      (if jsTruthyStrOpt (lookupParam q "pipeline") then
        match jsonParse ((lookupParam q "pipeline").getD "") with
        | some p => .aggregateR p
        | none => .badRequestR "Invalid aggregation pipeline"
      else .badRequestR "Pipeline parameter required for aggregation")
    else listRoute
  else listRoute

/-! ## Update semantics (src/api/data.js PUT/PATCH arm, lines 437-489)

The store applies `{ $set: body }` as a top-level field merge and a plain
body as a replacement that keeps the original primary key; both are
modelled after MongoDB's documented update semantics.  The models of
src/api/data.js are built with `timestamps` enabled (lines 133-137), so
every `findByIdAndUpdate`/`findOneAndUpdate` additionally writes the
`updatedAt` field with the operation time, overriding any value the
update body carries; and a replacement body whose `_id` differs from the
stored one makes the store raise an immutable-`_id` error. -/

/-- Plain sequence of property assignments (each body field written over
the base object, in order). -/
def assignAll (orig body : List (String × Val)) : List (String × Val) :=
  body.foldl (fun d kv => setField d kv.1 kv.2) orig

/-- Merge semantics of `{ $set: body }` under the timestamps-enabled
schema: each body field is written over the stored document, other stored
fields stay, and the store stamps `updatedAt` with the operation time
(replacing any `updatedAt` the body names). -/
def applySet (now : Val) (orig body : Doc) : Doc :=
  setField (assignAll orig body) "updatedAt" now

/-- Replacement semantics of a plain update body under the
timestamps-enabled schema: the stored `_id` is kept, every other field
comes from the body, `updatedAt` is stamped with the operation time, and
a body `_id` differing from the stored one raises the store's
immutable-`_id` error. -/
def replaceDoc (now : Val) (orig body : Doc) : Except Unit Doc :=
  let rest := setField (body.filter (fun kv => kv.1 ≠ "_id")) "updatedAt" now
  match getField orig "_id" with
  | some v =>
    match getField body "_id" with
    | some w => if Val.beq w v then .ok (("_id", v) :: rest) else .error ()
    | none => .ok (("_id", v) :: rest)
  | none => .ok rest

/-- Document targeted by the single-update path: `findByIdAndUpdate` when
the identifier has ObjectId form, then the
`{ $or: [{ _id: id }, { id: id }, { id: Number(id) }] }` fallback. -/
def findUpdateTarget (coll : List Doc) (id : String) : Option Doc :=
  match
    (if isValidObjectIdString id then findOneField coll "_id" (Val.vOid id)
     else none) with
  | some d => some d
  | none =>
    coll.find? (fun d =>
      (match getField d "_id" with
       | some w => scalarEq (.vStr id) w
       | none => false) || orIdPred "id" id (jsNumberOpt id) d)

/-- Embedding of the single-document update: locate the target, apply
merge (`PATCH`) or replacement (`PUT`) with the store's `updatedAt`
stamping, and return the updated document (`new: true`); `.ok none`
models the 404 path and `.error` a store error (the immutable-`_id`
conflict), surfaced as 500. -/
def handleUpdate (isPatch : Bool) (now : Val) (coll : List Doc) (id : String)
    (body : Doc) : Except Unit (Option Doc) :=
  match findUpdateTarget coll id with
  | none => .ok none
  | some orig =>
    if isPatch then .ok (some (applySet now orig body))
    else
      match replaceDoc now orig body with
      | .ok d => .ok (some d)
      | .error e => .error e

/-! ## Top-level dispatch of the enhanced handler (src/api/data.js,
lines 279-535), tracking which store operations a request performs -/

/-- Store operations a request can reach. -/
inductive StoreOp where
  | listCollections : StoreOp
  | readOp : String → StoreOp
  | insertOp : String → StoreOp
  | updateOp : String → StoreOp
  | delOp : String → StoreOp

/-- Coarse response classification of the dispatcher. -/
inductive HandlerResult where
  | listingR : HandlerResult
  | invalidNameR : HandlerResult
  | getR : ApiResult → HandlerResult
  | createdR : Val → HandlerResult
  | bulkLimitR : HandlerResult
  | missingBodyR : HandlerResult
  | missingIdR : HandlerResult
  | updatedR : Doc → HandlerResult
  | updateNotFoundR : HandlerResult
  | bulkUpdatedR : HandlerResult
  | deletedR : Doc → HandlerResult
  | deleteNotFoundR : HandlerResult
  | bulkDeletedR : HandlerResult
  | serverErrorR : HandlerResult
  | methodNotAllowedR : HandlerResult

/-- HTTP status of each dispatcher outcome. -/
def handlerStatus : HandlerResult → Nat
  | .listingR => 200
  | .invalidNameR => 400
  | .getR r => statusOf r
  | .createdR _ => 201
  | .bulkLimitR => 400
  | .missingBodyR => 400
  | .missingIdR => 400
  | .updatedR _ => 200
  | .updateNotFoundR => 404
  | .bulkUpdatedR => 200
  | .deletedR _ => 200
  | .deleteNotFoundR => 404
  | .bulkDeletedR => 200
  | .serverErrorR => 500
  | .methodNotAllowedR => 405

/-- Document targeted by the single-delete path (same strategies as the
update path). -/
def findDeleteTarget (coll : List Doc) (id : String) : Option Doc :=
  findUpdateTarget coll id

/-- Embedding of the enhanced handler after connection setup: the listing
route when no collection is addressed, the 400 rejection of an invalid
name before any model or store access, then the query assembly (whose
strict-mode `TypeError` answers 500 before the method switch, src
line 335), then the per-method switch.  `now` is the request time the
store stamps into updates.  The second component lists the store
operations the request performs. -/
def handlerDispatch (method : String) (info : CollInfo) (q : Query)
    (body : Option Val) (db : String → List Doc) (now : Val) :
    HandlerResult × List StoreOp :=
  if !jsTruthyStrOpt info.collection then (.listingR, [.listCollections])
  else
    match sanitizeCollectionName (info.collection.getD "") with
    | none => (.invalidNameR, [])
    | some s =>
      match (parseQueryFilters q).1 with
      | .error _ => (.serverErrorR, [])
      | .ok _ =>
      let coll := db s
      if method == "GET" then
        (.getR (handleGet coll info.idParam info.action q), [.readOp s])
      else if method == "POST" then
        match body with
        | none => (.missingBodyR, [])
        | some (.vArr xs) =>
          if 1000 < xs.length then (.bulkLimitR, [])
          else (.createdR (.vArr xs), [.insertOp s])
        | some b => (.createdR b, [.insertOp s])
      else if method == "PUT" || method == "PATCH" then
        match body with
        | none => (.missingBodyR, [])
        | some b =>
          if !jsTruthyStrOpt info.idParam && lookupParam q "bulk" == some "true" then
            (.bulkUpdatedR, [.updateOp s])
          else if !jsTruthyStrOpt info.idParam then (.missingIdR, [])
          else
            match b with
            | .vObj fs =>
              (match handleUpdate (method == "PATCH") now coll (info.idParam.getD "") fs with
               | .ok (some u) => (.updatedR u, [.updateOp s])
               | .ok none => (.updateNotFoundR, [.updateOp s])
               | .error _ => (.serverErrorR, [.updateOp s]))
            | _ => (.serverErrorR, [.updateOp s])
      else if method == "DELETE" then
        if !jsTruthyStrOpt info.idParam && lookupParam q "bulk" == some "true" then
          (.bulkDeletedR, [.delOp s])
        else if !jsTruthyStrOpt info.idParam then (.missingIdR, [])
        else
          match findDeleteTarget coll (info.idParam.getD "") with
          | some d => (.deletedR d, [.delOp s])
          | none => (.deleteNotFoundR, [.delOp s])
      else (.methodNotAllowedR, [])

/-- Occurrence relation matched by the nested scan: `FoundNested idv idn o v`
says that `o` is an object occurring inside the value tree `v` (through
array elements and object field values) that owns a key `id` or `id2` whose
value loosely matches the identifier. -/
inductive FoundNested (idv : String) (idn : Option Int) : Val → Val → Prop where
  | here : ∀ fs k w, (k, w) ∈ fs → (k = "id" ∨ k = "id2") →
      matchesIdNested idv idn w = true →
      FoundNested idv idn (Val.vObj fs) (Val.vObj fs)
  | inArr : ∀ x xs o, x ∈ xs → FoundNested idv idn o x →
      FoundNested idv idn o (Val.vArr xs)
  | inField : ∀ fs k w o, (k, w) ∈ fs → FoundNested idv idn o w →
      FoundNested idv idn o (Val.vObj fs)

/-! ## Lemmas about the fall-through combinators -/

/-- A strategy outcome that does not produce a document: an error or an
empty lookup. -/
def stageMiss (o : Except Unit (Option Doc)) : Bool :=
  match o with
  | .ok (some _) => false
  | _ => true

theorem runStrategies_eq_none_iff (l : List (Except Unit (Option Doc))) :
    runStrategies l = none ↔ ∀ o ∈ l, stageMiss o = true := by
  induction l with
  | nil => simp [runStrategies]
  | cons o rest ih =>
    match o with
    | .ok (some d) => simp [runStrategies, stageMiss]
    | .ok none => simp [runStrategies, stageMiss, ih]
    | .error e => simp [runStrategies, stageMiss, ih]

theorem runStrategies_eq_some_iff (l : List (Except Unit (Option Doc))) (d : Doc) :
    runStrategies l = some d ↔
      ∃ pre post, l = pre ++ Except.ok (some d) :: post ∧
        ∀ o ∈ pre, stageMiss o = true := by
  induction l with
  | nil =>
    simp only [runStrategies]
    constructor
    · intro h; exact absurd h (by simp)
    · rintro ⟨pre, post, heq, -⟩
      exact absurd heq (by simp)
  | cons o rest ih =>
    match o with
    | .ok (some d0) =>
      simp only [runStrategies]
      constructor
      · intro h
        obtain rfl : d0 = d := Option.some.inj h
        exact ⟨[], rest, rfl, by simp⟩
      · rintro ⟨pre, post, heq, hmiss⟩
        cases pre with
        | nil =>
          simp only [List.nil_append, List.cons.injEq] at heq
          exact congrArg _ (Option.some.inj (Except.ok.inj heq.1))
        | cons p pre' =>
          simp only [List.cons_append, List.cons.injEq] at heq
          have hm := hmiss p (List.mem_cons_self p pre')
          rw [show p = Except.ok (some d0) from heq.1.symm] at hm
          simp [stageMiss] at hm
    | .ok none =>
      simp only [runStrategies]
      rw [ih]
      constructor
      · rintro ⟨pre, post, heq, hmiss⟩
        refine ⟨Except.ok none :: pre, post, by simp [heq], ?_⟩
        intro o' ho'
        rcases List.mem_cons.mp ho' with h | h
        · subst h; rfl
        · exact hmiss o' h
      · rintro ⟨pre, post, heq, hmiss⟩
        cases pre with
        | nil => simp at heq
        | cons p pre' =>
          simp only [List.cons_append, List.cons.injEq] at heq
          exact ⟨pre', post, heq.2, fun o' ho' => hmiss o' (by simp [ho'])⟩
    | .error e =>
      simp only [runStrategies]
      rw [ih]
      constructor
      · rintro ⟨pre, post, heq, hmiss⟩
        refine ⟨Except.error e :: pre, post, by simp [heq], ?_⟩
        intro o' ho'
        rcases List.mem_cons.mp ho' with h | h
        · subst h; rfl
        · exact hmiss o' h
      · rintro ⟨pre, post, heq, hmiss⟩
        cases pre with
        | nil => simp at heq
        | cons p pre' =>
          simp only [List.cons_append, List.cons.injEq] at heq
          exact ⟨pre', post, heq.2, fun o' ho' => hmiss o' (by simp [ho'])⟩

theorem firstSome_eq_none_iff {α : Type} (l : List (Option α)) :
    firstSome l = none ↔ ∀ o ∈ l, o = none := by
  induction l with
  | nil => simp [firstSome]
  | cons o rest ih =>
    match o with
    | some a => simp [firstSome]
    | none => simp [firstSome, ih]

theorem firstSome_eq_some_iff {α : Type} (l : List (Option α)) (a : α) :
    firstSome l = some a ↔
      ∃ pre post, l = pre ++ some a :: post ∧ ∀ o ∈ pre, o = none := by
  induction l with
  | nil =>
    simp only [firstSome]
    constructor
    · intro h; exact absurd h (by simp)
    · rintro ⟨pre, post, heq, -⟩
      exact absurd heq (by simp)
  | cons o rest ih =>
    match o with
    | some a0 =>
      simp only [firstSome]
      constructor
      · intro h
        obtain rfl : a0 = a := Option.some.inj h
        exact ⟨[], rest, rfl, by simp⟩
      · rintro ⟨pre, post, heq, hmiss⟩
        cases pre with
        | nil =>
          simp only [List.nil_append, List.cons.injEq] at heq
          exact heq.1
        | cons p pre' =>
          simp only [List.cons_append, List.cons.injEq] at heq
          have hm := hmiss p (List.mem_cons_self p pre')
          rw [show p = some a0 from heq.1.symm] at hm
          simp at hm
    | none =>
      simp only [firstSome]
      rw [ih]
      constructor
      · rintro ⟨pre, post, heq, hmiss⟩
        refine ⟨none :: pre, post, by simp [heq], ?_⟩
        intro o' ho'
        rcases List.mem_cons.mp ho' with h | h
        · subst h; rfl
        · exact hmiss o' h
      · rintro ⟨pre, post, heq, hmiss⟩
        cases pre with
        | nil => simp at heq
        | cons p pre' =>
          simp only [List.cons_append, List.cons.injEq] at heq
          exact ⟨pre', post, heq.2, fun o' ho' => hmiss o' (by simp [ho'])⟩

/-! ## Lemmas about object-property assignment and merge -/

theorem lookup_cons_eq (k k1 : String) (v1 : Val) (rest : List (String × Val)) :
    List.lookup k ((k1, v1) :: rest) = if k = k1 then some v1 else List.lookup k rest := by
  rw [List.lookup_cons]
  by_cases h : k = k1
  · simp [h]
  · have hbe : (k == k1) = false := by
      cases hbe : k == k1 with
      | true => exact absurd (eq_of_beq hbe) h
      | false => rfl
    rw [hbe, if_neg h]

theorem lookup_mapSet (d : List (String × Val)) (k k' : String) (v : Val) :
    List.lookup k (d.map (fun kv => if kv.1 == k' then (kv.1, v) else kv)) =
      if k = k' ∧ d.any (fun kv => kv.1 == k) = true then some v
      else List.lookup k d := by
  induction d with
  | nil => simp
  | cons kv rest ih =>
    obtain ⟨k1, v1⟩ := kv
    by_cases hbk : k1 = k' <;> by_cases hk : k = k1
    · simp_all [List.any_cons, lookup_cons_eq, List.map_cons]
    · have hbe : (k1 == k) = false := by
        cases hbe : k1 == k with
        | true => exact absurd (eq_of_beq hbe) (fun he => hk he.symm)
        | false => rfl
      have hkk : ¬k = k' := fun he => hk (he.trans hbk.symm)
      simp_all [List.any_cons, lookup_cons_eq, List.map_cons]
    · simp_all [List.any_cons, lookup_cons_eq, List.map_cons]
    · have hbe : (k1 == k) = false := by
        cases hbe : k1 == k with
        | true => exact absurd (eq_of_beq hbe) (fun he => hk he.symm)
        | false => rfl
      simp_all [List.any_cons, lookup_cons_eq, List.map_cons]
      have hor : (k1 == k || rest.any fun kv => kv.1 == k) =
          (rest.any fun kv => kv.1 == k) := by
        have hf : (k1 == k) = false := by
          cases hx : k1 == k with
          | true => exact absurd (eq_of_beq hx) hbe
          | false => rfl
        rw [hf, Bool.false_or]
      rw [hor]

theorem lookup_append_eq (d1 d2 : List (String × Val)) (k : String) :
    List.lookup k (d1 ++ d2) =
      (match List.lookup k d1 with
       | some v => some v
       | none => List.lookup k d2) := by
  induction d1 with
  | nil => simp
  | cons kv rest ih =>
    obtain ⟨k1, v1⟩ := kv
    by_cases hk : k = k1
    · simp [lookup_cons_eq, hk]
    · simp [lookup_cons_eq, hk, ih]

theorem lookup_setField_ne (d : List (String × Val)) (k k' : String) (v : Val)
    (h : k ≠ k') :
    List.lookup k (setField d k' v) = List.lookup k d := by
  unfold setField
  by_cases hb : d.any (fun kv => kv.1 == k') = true
  · simp only [hb, if_true]
    rw [lookup_mapSet]
    simp [h]
  · have hf : d.any (fun kv => kv.1 == k') = false := by
      cases hx : d.any (fun kv => kv.1 == k') with
      | true => exact absurd hx hb
      | false => rfl
    simp only [hf, Bool.false_eq_true, if_false]
    rw [lookup_append_eq]
    cases hx : List.lookup k d with
    | some w => rfl
    | none => simp [lookup_cons_eq, h]

theorem assignAll_cons (orig : Doc) (kv : String × Val) (rest : Doc) :
    assignAll orig (kv :: rest) = assignAll (setField orig kv.1 kv.2) rest := rfl

theorem lookup_assignAll_not_mem (orig body : Doc) (k : String)
    (h : ∀ kv ∈ body, kv.1 ≠ k) :
    List.lookup k (assignAll orig body) = List.lookup k orig := by
  induction body generalizing orig with
  | nil => rfl
  | cons kv rest ih =>
    obtain ⟨k1, v1⟩ := kv
    rw [assignAll_cons, ih _ (fun kv' h' => h kv' (List.mem_cons_of_mem _ h'))]
    exact lookup_setField_ne orig k k1 v1 (Ne.symm (h (k1, v1) (List.mem_cons_self _ _)))

theorem mergeMeta_eq_assignAll (base extra : List (String × Val)) :
    mergeMeta base extra = assignAll base extra := rfl

/-! ## Lemmas about the case-folding and trimming primitives -/

theorem toNat_ofNat_small (n : Nat) (h : n < 55296) : (Char.ofNat n).toNat = n := by
  have hv : n.isValidChar := Or.inl h
  rw [Char.ofNat, dif_pos hv]
  rfl

theorem jsLowerChar_toNat (c : Char) :
    (jsLowerChar c).toNat =
      if 65 ≤ c.toNat ∧ c.toNat ≤ 90 then c.toNat + 32 else c.toNat := by
  unfold jsLowerChar
  by_cases h : 65 ≤ c.toNat ∧ c.toNat ≤ 90
  · rw [if_pos h, if_pos h]
    exact toNat_ofNat_small _ (by omega)
  · rw [if_neg h, if_neg h]

theorem isJsSpace_jsLowerChar (c : Char) :
    isJsSpace (jsLowerChar c) = isJsSpace c := by
  unfold isJsSpace
  rw [jsLowerChar_toNat]
  by_cases h : 65 ≤ c.toNat ∧ c.toNat ≤ 90
  · rw [if_pos h]
    exact decide_eq_decide.mpr (by omega)
  · rw [if_neg h]

theorem jsLowerChar_idem (c : Char) :
    jsLowerChar (jsLowerChar c) = jsLowerChar c := by
  unfold jsLowerChar
  by_cases h : 65 ≤ c.toNat ∧ c.toNat ≤ 90
  · rw [if_pos h]
    have ht : (Char.ofNat (c.toNat + 32)).toNat = c.toNat + 32 :=
      toNat_ofNat_small _ (by omega)
    rw [if_neg (by rw [ht]; omega)]
  · rw [if_neg h, if_neg h]

theorem jsTrimList_map_lower (l : List Char) :
    jsTrimList (l.map jsLowerChar) = (jsTrimList l).map jsLowerChar := by
  have hdw : ∀ m : List Char,
      (m.map jsLowerChar).dropWhile isJsSpace =
        (m.dropWhile isJsSpace).map jsLowerChar := by
    intro m
    rw [List.dropWhile_map]
    have hfe : (isJsSpace ∘ jsLowerChar) = isJsSpace :=
      funext fun c => isJsSpace_jsLowerChar c
    rw [hfe]
  unfold jsTrimList
  rw [hdw, ← List.map_reverse, hdw, ← List.map_reverse]

theorem jsToLower_trim_comm (s : String) :
    jsTrim (jsToLower s) = jsToLower (jsTrim s) := by
  unfold jsTrim jsToLower
  exact congrArg String.mk (jsTrimList_map_lower s.data)

theorem jsToLower_idem (s : String) :
    jsToLower (jsToLower s) = jsToLower s := by
  unfold jsToLower
  apply congrArg String.mk
  show (s.data.map jsLowerChar).map jsLowerChar = s.data.map jsLowerChar
  rw [List.map_map]
  congr 1
  funext c
  simp [Function.comp, jsLowerChar_idem]

theorem jsToLower_eq_empty_iff (s : String) : jsToLower s = "" ↔ s = "" := by
  constructor
  · intro h
    have hd : s.data.map jsLowerChar = [] := congrArg String.data h
    have hnil : s.data = [] := List.map_eq_nil_iff.mp hd
    cases s with
    | mk data =>
      rw [show data = [] from hnil]
  · intro h
    rw [h]
    rfl

theorem sanitize_lower_invariant (name : String) :
    sanitizeCollectionName name = sanitizeCollectionName (jsToLower name) := by
  unfold sanitizeCollectionName
  by_cases h : name = ""
  · rw [h]
    rfl
  · have h2 : ¬jsToLower name = "" := fun he => h ((jsToLower_eq_empty_iff name).mp he)
    have hb1 : (name == "") = false := by
      cases hx : name == "" with
      | true => exact absurd (eq_of_beq hx) h
      | false => rfl
    have hb2 : (jsToLower name == "") = false := by
      cases hx : jsToLower name == "" with
      | true => exact absurd (eq_of_beq hx) h2
      | false => rfl
    rw [hb1, hb2]
    have hkey : jsToLower (jsTrim (jsToLower name)) = jsToLower (jsTrim name) := by
      rw [jsToLower_trim_comm, jsToLower_idem]
    rw [hkey]

/-! ## Characterisation of the nested scan -/

theorem searchRecursive_eq_nil_of_scalar (idv : String) (idn : Option Int)
    (w : Val) (h : isObjOrArrVal w = false) :
    searchRecursive idv idn w = [] := by
  cases w <;> simp_all [isObjOrArrVal, searchRecursive]

theorem mem_searchRecursiveList_iff (idv : String) (idn : Option Int)
    (xs : List Val) (o : Val) :
    o ∈ searchRecursiveList idv idn xs ↔
      ∃ x ∈ xs, o ∈ searchRecursive idv idn x := by
  induction xs with
  | nil => simp [searchRecursiveList]
  | cons x rest ih =>
    simp only [searchRecursiveList, List.mem_append, ih, List.mem_cons]
    constructor
    · rintro (h | ⟨y, hy, hm⟩)
      · exact ⟨x, Or.inl rfl, h⟩
      · exact ⟨y, Or.inr hy, hm⟩
    · rintro ⟨y, hy | hy, hm⟩
      · exact Or.inl (hy ▸ hm)
      · exact Or.inr ⟨y, hy, hm⟩

theorem mem_searchRecursiveFields_iff (idv : String) (idn : Option Int)
    (parent : Val) (fs : List (String × Val)) (o : Val) :
    o ∈ searchRecursiveFields idv idn parent fs ↔
      ((o = parent ∧ ∃ kw ∈ fs, (kw.1 = "id" ∨ kw.1 = "id2") ∧
          matchesIdNested idv idn kw.2 = true) ∨
        ∃ kw ∈ fs, o ∈ searchRecursive idv idn kw.2) := by
  induction fs with
  | nil => simp [searchRecursiveFields]
  | cons kw rest ih =>
    obtain ⟨k, w⟩ := kw
    have hguard : (if isObjOrArrVal w then searchRecursive idv idn w else []) =
        searchRecursive idv idn w := by
      cases hw : isObjOrArrVal w with
      | true => rw [if_pos rfl]
      | false => rw [if_neg (by simp [hw]), searchRecursive_eq_nil_of_scalar idv idn w hw]
    have hpush : ∀ x : Val,
        (x ∈ (if (k == "id" || k == "id2") && matchesIdNested idv idn w then [parent]
              else [])) ↔
          (x = parent ∧ (k = "id" ∨ k = "id2") ∧ matchesIdNested idv idn w = true) := by
      intro x
      cases hc : (k == "id" || k == "id2") && matchesIdNested idv idn w with
      | true =>
        rw [if_pos rfl]
        have hc2 := hc
        rw [Bool.and_eq_true, Bool.or_eq_true] at hc2
        constructor
        · intro hx
          refine ⟨by simpa using hx, ?_, hc2.2⟩
          rcases hc2.1 with h | h
          · exact Or.inl (eq_of_beq h)
          · exact Or.inr (eq_of_beq h)
        · intro hx
          simp [hx.1]
      | false =>
        rw [if_neg (by simp [hc])]
        constructor
        · intro hx; simp at hx
        · rintro ⟨-, hk, hm⟩
          have : ((k == "id" || k == "id2") && matchesIdNested idv idn w) = true := by
            rw [Bool.and_eq_true, Bool.or_eq_true]
            refine ⟨?_, hm⟩
            rcases hk with h | h
            · exact Or.inl (by simp [h])
            · exact Or.inr (by simp [h])
          rw [hc] at this
          exact absurd this (by simp)
    rw [searchRecursiveFields]
    simp only [List.mem_append, hguard, hpush, ih, List.mem_cons]
    constructor
    · rintro ((⟨rfl, hk, hm⟩ | hm) | (⟨rfl, kw2, hkw2, hp⟩ | ⟨kw2, hkw2, hm⟩))
      · exact Or.inl ⟨rfl, (k, w), Or.inl rfl, hk, hm⟩
      · exact Or.inr ⟨(k, w), Or.inl rfl, hm⟩
      · exact Or.inl ⟨rfl, kw2, Or.inr hkw2, hp⟩
      · exact Or.inr ⟨kw2, Or.inr hkw2, hm⟩
    · rintro (⟨rfl, kw2, hkw2 | hkw2, hp⟩ | ⟨kw2, hkw2 | hkw2, hm⟩)
      · exact Or.inl (Or.inl ⟨rfl, by rw [hkw2] at hp; exact hp.1, by rw [hkw2] at hp; exact hp.2⟩)
      · exact Or.inr (Or.inl ⟨rfl, kw2, hkw2, hp⟩)
      · exact Or.inl (Or.inr (by rw [hkw2] at hm; exact hm))
      · exact Or.inr (Or.inr ⟨kw2, hkw2, hm⟩)

theorem mem_searchRecursive_iff (idv : String) (idn : Option Int) (v o : Val) :
    o ∈ searchRecursive idv idn v ↔ FoundNested idv idn o v := by
  have H : ∀ n : Nat, ∀ v o : Val, sizeOf v ≤ n →
      (o ∈ searchRecursive idv idn v ↔ FoundNested idv idn o v) := by
    intro n
    induction n with
    | zero =>
      intro v o hle
      exfalso
      cases v <;> simp at hle
    | succ n ih =>
      intro v o hle
      cases v with
      | vNull =>
        constructor
        · intro h; simp [searchRecursive] at h
        · intro h; cases h
      | vBool b =>
        constructor
        · intro h; simp [searchRecursive] at h
        · intro h; cases h
      | vNum m =>
        constructor
        · intro h; simp [searchRecursive] at h
        · intro h; cases h
      | vStr t =>
        constructor
        · intro h; simp [searchRecursive] at h
        · intro h; cases h
      | vOid t =>
        constructor
        · intro h; simp [searchRecursive] at h
        · intro h; cases h
      | vArr xs =>
        rw [show searchRecursive idv idn (Val.vArr xs) = searchRecursiveList idv idn xs
            from by simp [searchRecursive]]
        rw [mem_searchRecursiveList_iff]
        constructor
        · rintro ⟨x, hx, hmem⟩
          have hs : sizeOf x ≤ n := by
            have h1 := List.sizeOf_lt_of_mem hx
            have h2 : sizeOf (Val.vArr xs) = 1 + sizeOf xs := by simp
            omega
          exact .inArr x xs o hx ((ih x o hs).mp hmem)
        · intro h
          cases h with
          | inArr x xs2 o2 hx hf =>
            have hs : sizeOf x ≤ n := by
              have h1 := List.sizeOf_lt_of_mem hx
              have h2 : sizeOf (Val.vArr xs) = 1 + sizeOf xs := by simp
              omega
            exact ⟨x, hx, (ih x o hs).mpr hf⟩
      | vObj fs =>
        rw [show searchRecursive idv idn (Val.vObj fs) =
            searchRecursiveFields idv idn (Val.vObj fs) fs
            from by simp [searchRecursive]]
        rw [mem_searchRecursiveFields_iff]
        constructor
        · rintro (⟨rfl, kw, hkw, hk, hm⟩ | ⟨kw, hkw, hmem⟩)
          · exact .here fs kw.1 kw.2 (by simpa using hkw) hk hm
          · have hs : sizeOf kw.2 ≤ n := by
              have h1 := List.sizeOf_lt_of_mem hkw
              obtain ⟨a, b⟩ := kw
              have h2 : sizeOf (Val.vObj fs) = 1 + sizeOf fs := by simp
              simp only at h1 ⊢
              have h3 : sizeOf (a, b) = 1 + sizeOf a + sizeOf b := by simp
              omega
            exact .inField fs kw.1 kw.2 o (by simpa using hkw) ((ih kw.2 o hs).mp hmem)
        · intro h
          cases h with
          | here fs2 k w hkw hk hm =>
            exact Or.inl ⟨rfl, (k, w), hkw, hk, hm⟩
          | inField fs2 k w o2 hkw hf =>
            have hs : sizeOf w ≤ n := by
              have h1 := List.sizeOf_lt_of_mem hkw
              have h2 : sizeOf (Val.vObj fs) = 1 + sizeOf fs := by simp
              have h3 : sizeOf (k, w) = 1 + sizeOf k + sizeOf w := by simp
              omega
            exact Or.inr ⟨(k, w), hkw, (ih w o hs).mpr hf⟩
  exact H (sizeOf v) v o (Nat.le_refl _)

/-- C1 counterexample: the claim says a stage that throws only falls
through to the next stage, for every version of `findByIdFlexible`.  In the
src/unnamed/part_001 variant there is no per-stage catch: with a driver
fault at the second call site (the string `_id` lookup), the whole lookup
aborts with the error, even though the fault-free run of the very same
collection and identifier finds the document at the later numeric-id
stage; an erroring run is never the `ok` outcome the claim requires. -/
theorem C1_counterexample :
    findByIdFlexibleV1F [[("id", Val.vNum 5)]] "5" [false, true] = .error ()
      ∧ findByIdFlexibleV1F [[("id", Val.vNum 5)]] "5" [] =
          .ok (some (.single [("id", Val.vNum 5)]))
      ∧ ∀ r : Option LocateResult,
          (Except.error () : Except Unit (Option LocateResult)) ≠ .ok r := by
  refine ⟨rfl, rfl, ?_⟩
  intro r h
  exact Except.noConfusion h

/-- C1 (amended): in the enhanced locator of src/api/data.js the six
identity strategies run in their listed order; the first strategy whose
call returns a document determines the result; a strategy that errors or
finds nothing only falls through; and the call returns null exactly when
every strategy errors or finds nothing.  When the request's filter
assembly does not throw, the GET id route maps that null to HTTP 404;
when it throws (a truthy plain filter followed by an allow-listed dotted
operator on the same field), the request answers 500 before the id route
runs.  In the part_001 variant the same order applies but a stage error
propagates instead of falling through (see the counterexample). -/
theorem C1_locator_stage_order (coll : List Doc) (idValue : String)
    (faults : List Bool) :
    (findByIdFlexible coll idValue faults = none ↔
      ∀ o ∈ dataOutcomes coll idValue faults, stageMiss o = true)
    ∧ (∀ d : Doc, findByIdFlexible coll idValue faults = some d ↔
        ∃ pre post, dataOutcomes coll idValue faults =
            pre ++ Except.ok (some d) :: post ∧ ∀ o ∈ pre, stageMiss o = true)
    ∧ (∀ (idv : String) (action : Option String) (q : Query)
          (filters : List (String × Val)), idv ≠ "" →
        (parseQueryFilters q).1 = .ok filters →
        (statusOf (handleGet coll (some idv) action q) = 404 ↔
          findByIdFlexible coll idv [] = none))
    ∧ (∀ (idv : String) (action : Option String) (q : Query),
        (parseQueryFilters q).1 = .error () →
        statusOf (handleGet coll (some idv) action q) = 500) := by
  refine ⟨runStrategies_eq_none_iff _, fun d => runStrategies_eq_some_iff _ d, ?_, ?_⟩
  · intro idv action q filters hne hok
    cases hf : findByIdFlexible coll idv [] with
    | some d => simp [handleGet, hok, jsTruthyStrOpt, hne, hf, statusOf]
    | none => simp [handleGet, hok, jsTruthyStrOpt, hne, hf, statusOf]
  · intro idv action q herr
    simp [handleGet, herr, statusOf]

/-- C1 witness at a concrete input: an empty collection yields 404. -/
theorem C1_locator_stage_order_witness :
    statusOf (handleGet [] (some "x") none []) = 404 :=
  ((C1_locator_stage_order [] "x" []).2.2.1 "x" none [] [] (by decide) rfl).mpr rfl

/-- C2 counterexample: the claim says the stage-4 result set contains the
document's top-level container.  For a document whose only matching `id`
lives inside an embedded array, the part_001 locator returns the nested
item itself, and the top-level container is not in the result set. -/
theorem C2_counterexample :
    findByIdFlexibleV1
        [[("_id", Val.vOid "aaaaaaaaaaaaaaaaaaaaaaaa"),
          ("items", Val.vArr [Val.vObj [("id", Val.vNum 5), ("name", Val.vStr "x")]])]]
        "5" =
      some (.many [Val.vObj [("id", Val.vNum 5), ("name", Val.vStr "x")]])
    ∧ Val.vObj [("_id", Val.vOid "aaaaaaaaaaaaaaaaaaaaaaaa"),
          ("items", Val.vArr [Val.vObj [("id", Val.vNum 5), ("name", Val.vStr "x")]])] ∉
        [Val.vObj [("id", Val.vNum 5), ("name", Val.vStr "x")]] := by
  constructor
  · simp +decide [findByIdFlexibleV1, findByIdFlexibleV1F, callSite, findOneField,
      orIdPred, getField, scalarEq, isValidObjectIdString, jsNumberOpt, jsTrimList,
      isJsSpace, natFromDigits, searchRecursive, searchRecursiveList,
      searchRecursiveFields, matchesIdNested, jsStringOfVal, isObjOrArrVal]
  · simp

/-- C2 (amended): when the identifier has no ObjectId form, no document
matches `_id` as a string, and no document matches the top-level
`id`-field `$or` lookup, and the bounded recursive scan finds at least one
match, the part_001 locator resolves at stage 4 and returns exactly the
list of immediate containing objects (one entry per matching `id`/`id2`
occurrence inside the first 1000 documents) — not the top-level
containers. -/
theorem C2_nested_scan (coll : List Doc) (idValue : String)
    (h1 : isValidObjectIdString idValue = false)
    (h2 : findOneField coll "_id" (Val.vStr idValue) = none)
    (h3 : coll.find? (orIdPred "id" idValue (jsNumberOpt idValue)) = none)
    (h4 : scanResults coll idValue ≠ []) :
    findByIdFlexibleV1 coll idValue = some (.many (scanResults coll idValue))
    ∧ ∀ o : Val, o ∈ scanResults coll idValue ↔
        ∃ d ∈ coll.take 1000,
          FoundNested idValue (jsNumberOpt idValue) o (Val.vObj d) := by
  constructor
  · unfold findByIdFlexibleV1 findByIdFlexibleV1F
    rw [if_neg (by simp [h1])]
    simp only [callSite, List.getD_nil]
    have hsr : ((coll.take 1000).map
        (fun d => searchRecursive idValue (jsNumberOpt idValue) (Val.vObj d))).flatten =
        scanResults coll idValue := rfl
    simp only [List.getD, Bool.false_eq_true, if_false, h2, h3, hsr]
    rw [if_pos (by simpa using h4)]
  · intro o
    unfold scanResults
    rw [List.mem_flatten]
    constructor
    · rintro ⟨l, hl, ho⟩
      rw [List.mem_map] at hl
      obtain ⟨d, hd, rfl⟩ := hl
      exact ⟨d, hd, (mem_searchRecursive_iff _ _ _ _).mp ho⟩
    · rintro ⟨d, hd, hf⟩
      exact ⟨searchRecursive idValue (jsNumberOpt idValue) (Val.vObj d),
        List.mem_map_of_mem _ hd, (mem_searchRecursive_iff _ _ _ _).mpr hf⟩

/-- C2 witness at a concrete input with a nested identifier. -/
theorem C2_nested_scan_witness :
    findByIdFlexibleV1
        [[("_id", Val.vOid "aaaaaaaaaaaaaaaaaaaaaaaa"),
          ("items", Val.vArr [Val.vObj [("id", Val.vNum 5), ("name", Val.vStr "x")]])]]
        "5" =
      some (.many (scanResults
        [[("_id", Val.vOid "aaaaaaaaaaaaaaaaaaaaaaaa"),
          ("items", Val.vArr [Val.vObj [("id", Val.vNum 5), ("name", Val.vStr "x")]])]]
        "5")) :=
  (C2_nested_scan
    [[("_id", Val.vOid "aaaaaaaaaaaaaaaaaaaaaaaa"),
      ("items", Val.vArr [Val.vObj [("id", Val.vNum 5), ("name", Val.vStr "x")]])]]
    "5" rfl rfl rfl (by
    simp +decide [scanResults, searchRecursive, searchRecursiveList,
      searchRecursiveFields, matchesIdNested, jsStringOfVal, jsNumberOpt, jsTrimList,
      isJsSpace, natFromDigits, isObjOrArrVal])).1

/-- C3 counterexample: the claim says every alternate identifier field is
matched both as the given string and, when the identifier parses as a
number, as a numeric literal.  `findDocumentById` of src/unnamed/part_002
queries each field only with the identifier string: a document whose `id`
field holds the number 5 is not found by the identifier "5", although "5"
parses as the number 5. -/
theorem C3_counterexample :
    findDocumentById [[("id", Val.vNum 5)]] "5" = none
      ∧ jsNumberOpt "5" = some 5
      ∧ ¬∀ (coll : List Doc) (idValue : String) (n : Int),
          jsNumberOpt idValue = some n →
          (∃ d ∈ coll, getField d "id" = some (Val.vNum n)) →
          ∃ r, findDocumentById coll idValue = some r := by
  refine ⟨rfl, rfl, ?_⟩
  intro hall
  obtain ⟨r, hr⟩ := hall [[("id", Val.vNum 5)]] "5" 5 rfl
    ⟨[("id", Val.vNum 5)], by simp, rfl⟩
  rw [show findDocumentById [[("id", Val.vNum 5)]] "5" = none from rfl] at hr
  exact Option.noConfusion hr

/-- C3 (amended): for a non-empty identifier without ObjectId form,
`findDocumentById` tries the candidate fields in the fixed order `_id`,
`id`, `slug`, `uuid`, `email`, `username`, matching each one only against
the identifier as the given string; the first field with a hit determines
the document, and the lookup fails exactly when no field matches. -/
theorem C3_field_priority (coll : List Doc) (idValue : String)
    (h1 : idValue ≠ "") (h2 : isValidObjectIdString idValue = false) :
    (findDocumentById coll idValue = none ↔
      ∀ f ∈ idLookupFields, findOneField coll f (Val.vStr idValue) = none)
    ∧ ∀ d : Doc, findDocumentById coll idValue = some d ↔
        ∃ pre post,
          idLookupFields.map (fun f => findOneField coll f (Val.vStr idValue)) =
            pre ++ some d :: post ∧ ∀ o ∈ pre, o = none := by
  have hdef : findDocumentById coll idValue =
      firstSome (idLookupFields.map (fun f => findOneField coll f (Val.vStr idValue))) := by
    unfold findDocumentById
    rw [if_neg (by simp [h1]), h2]
    rfl
  constructor
  · rw [hdef, firstSome_eq_none_iff]
    constructor
    · intro h f hf
      exact h _ (List.mem_map_of_mem _ hf)
    · intro h o ho
      rw [List.mem_map] at ho
      obtain ⟨f, hf, rfl⟩ := ho
      exact h f hf
  · intro d
    rw [hdef]
    exact firstSome_eq_some_iff _ d

/-- C3 witness at a concrete input resolved through the `slug` field. -/
theorem C3_field_priority_witness :
    findDocumentById [[("slug", Val.vStr "abc")]] "abc" =
      some [("slug", Val.vStr "abc")] :=
  ((C3_field_priority [[("slug", Val.vStr "abc")]] "abc" (by decide) (by decide)).2 _).mpr
    ⟨[none, none], [none, none, none], rfl, by simp⟩

/-- C4 counterexample: the claim says a GET with collection, id and
action=count returns the scalar count.  The GET arm checks the id route
first: with both an id and action=count extracted (as the wildcard slug
route produces), the handler returns the resolved document and never
reaches the action switch. -/
theorem C4_counterexample :
    extractCollectionInfo none none (some ["users", "123", "count"]) "" =
        ⟨some "users", some "123", some "count"⟩
      ∧ handleGet [[("id", Val.vNum 123)]] (some "123") (some "count") [] =
          .docR [("id", Val.vNum 123)]
      ∧ ∀ n : Nat, ApiResult.docR [("id", Val.vNum 123)] ≠ .countR n := by
  refine ⟨rfl, rfl, ?_⟩
  intro n h
  exact ApiResult.noConfusion h

/-- C4 (amended): when the request's filter assembly does not throw, the
special actions answer only without a (truthy) id — action=count returns
the scalar filtered count, action=distinct the distinct-value list of the
given field, action=aggregate the raw result for the parsed pipeline —
and with an id present the GET arm returns the located document (or 404)
and ignores the action entirely.  When the filter assembly throws its
strict-mode `TypeError` (a truthy plain filter followed by an
allow-listed dotted operator on the same field), the request answers 500
for every id/action combination, before the id route or the action
switch. -/
theorem C4_actions_run_only_without_id (coll : List Doc) (q : Query) :
    (∀ filters, (parseQueryFilters q).1 = .ok filters →
      handleGet coll none (some "count") q = .countR (countDocuments coll filters))
    ∧ (∀ filters (f : String), (parseQueryFilters q).1 = .ok filters →
        lookupParam q "field" = some f → f ≠ "" →
        handleGet coll none (some "distinct") q =
          .distinctR f (distinctValues coll f filters))
    ∧ (∀ filters (p : String), (parseQueryFilters q).1 = .ok filters →
        lookupParam q "pipeline" = some p → p ≠ "" →
        handleGet coll none (some "aggregate") q =
          (match jsonParse p with
           | some pl => .aggregateR pl
           | none => .badRequestR "Invalid aggregation pipeline"))
    ∧ (∀ filters, (parseQueryFilters q).1 = .ok filters →
        ∀ idv : String, idv ≠ "" → ∀ action : Option String,
        handleGet coll (some idv) action q =
          (match findByIdFlexible coll idv [] with
           | some d => .docR d
           | none => .notFoundR ("Document with id " ++ idv ++ " not found")))
    ∧ ((parseQueryFilters q).1 = .error () →
        ∀ idOpt actionOpt : Option String,
          handleGet coll idOpt actionOpt q = .serverErrorR
          ∧ statusOf ApiResult.serverErrorR = 500) := by
  refine ⟨?_, ?_, ?_, ?_, ?_⟩
  · intro filters hok
    simp [handleGet, hok, jsTruthyStrOpt]
  · intro filters f hok hf hfne
    simp [handleGet, hok, jsTruthyStrOpt, hf, hfne]
  · intro filters p hok hp hpne
    cases hjp : jsonParse p with
    | some pl => simp [handleGet, hok, jsTruthyStrOpt, hp, hpne, hjp]
    | none => simp [handleGet, hok, jsTruthyStrOpt, hp, hpne, hjp]
  · intro filters hok idv hne action
    cases hf : findByIdFlexible coll idv [] with
    | some d => simp [handleGet, hok, jsTruthyStrOpt, hne, hf]
    | none => simp [handleGet, hok, jsTruthyStrOpt, hne, hf]
  · intro herr idOpt actionOpt
    exact ⟨by simp [handleGet, herr], rfl⟩

/-- C4 witness at a concrete input: without an id, action=count counts. -/
theorem C4_actions_witness :
    handleGet [[("id", Val.vNum 1)]] none (some "count") [] = .countR 1 :=
  ((C4_actions_run_only_without_id [[("id", Val.vNum 1)]] []).1 [] rfl).trans rfl

/-- C5 counterexample: the claim says predicate construction excludes
`action` and admits every non-reserved name.  `parseQueryFilters` of
src/api/data.js excludes `slug` instead of `action`: a parameter named
`action` becomes an equality filter and a parameter named `slug` is
dropped. -/
theorem C5_counterexample :
    (parseQueryFilters [("action", "x")]).1 = .ok [("action", Val.vStr "x")]
      ∧ (parseQueryFilters [("slug", "x")]).1 = .ok [] := by
  exact ⟨rfl, rfl⟩

/-- C5 (amended): each variant excludes exactly its own reserved list —
`parseQueryFilters` skips `limit`, `skip`, `sort`, `select`, `populate`,
`collection`, `id` and `slug` (not `action`), `buildFilterFromQuery` skips
`collection`, `id`, `action`, `limit`, `skip`, `sort`, `fields` and
`populate`.  Every other plain parameter contributes an equality filter;
a dotted parameter with an unknown operator suffix is dropped without
error; a dotted parameter with an allow-listed suffix contributes an
operator entry when the field's entry so far is absent, falsy or an
operator object — but when the field already holds a truthy primitive
equality value, the strict-mode property assignment throws and the whole
request fails with 500 instead of contributing. -/
theorem C5_filter_key_rules (fs : List (String × Val)) (k v : String) (vv : Val) :
    (reservedFilterKeys.contains k = true → processFilterKey fs k v = .ok fs)
    ∧ (reservedFilterKeys.contains k = false → strContainsChar k '.' = false →
        processFilterKey fs k v = .ok (setField fs k (coerceEqVal v)))
    ∧ (reservedFilterKeys.contains k = false → strContainsChar k '.' = true →
        ∀ field op rest2, strSplitOnChar k '.' = field :: op :: rest2 →
        (allowedOperators.contains ("$" ++ op) = false →
            processFilterKey fs k v = .ok fs)
        ∧ (allowedOperators.contains ("$" ++ op) = true →
            processFilterKey fs k v = addOpFilter fs field ("$" ++ op) (coerceOpVal v)))
    ∧ (∀ field op (w : Val), List.lookup field fs = none →
        addOpFilter fs field op w = .ok (setField fs field (Val.vObj [(op, w)])))
    ∧ (∀ field op (w : Val) (entries : List (String × Val)),
        List.lookup field fs = some (Val.vObj entries) →
        addOpFilter fs field op w =
          .ok (setField fs field (Val.vObj (setField entries op w))))
    ∧ (∀ field op (w : Val) (n : Int), List.lookup field fs = some (Val.vNum n) →
        n ≠ 0 → addOpFilter fs field op w = .error ())
    ∧ (∀ field op (w : Val) (t : String), List.lookup field fs = some (Val.vStr t) →
        t ≠ "" → addOpFilter fs field op w = .error ())
    ∧ (excludedParamsP2.contains k = true → p2FilterStep fs k vv = .ok fs)
    ∧ (excludedParamsP2.contains k = false → strStartsWith k "$" = false →
        p2FilterStep fs k vv = .ok (setField fs k vv))
    ∧ (∀ q2 : Query, (∀ kv ∈ q2, reservedFilterKeys.contains kv.1 = true) →
        (parseQueryFilters q2).1 = .ok []) := by
  refine ⟨?_, ?_, ?_, ?_, ?_, ?_, ?_, ?_, ?_, ?_⟩
  · intro h
    unfold processFilterKey
    rw [if_pos h]
  · intro h1 h2
    unfold processFilterKey
    rw [if_neg (by rw [h1]; simp), if_neg (by rw [h2]; simp)]
  · intro h1 h2 field op rest2 hsplit
    constructor
    · intro hop
      unfold processFilterKey
      rw [if_neg (by rw [h1]; simp), if_pos h2, hsplit]
      show (if allowedOperators.contains ("$" ++ op) = true then
          addOpFilter fs field ("$" ++ op) (coerceOpVal v)
        else Except.ok fs) = _
      rw [hop]
      simp
    · intro hop
      unfold processFilterKey
      rw [if_neg (by rw [h1]; simp), if_pos h2, hsplit]
      show (if allowedOperators.contains ("$" ++ op) = true then
          addOpFilter fs field ("$" ++ op) (coerceOpVal v)
        else Except.ok fs) = _
      rw [if_pos hop]
  · intro field op w h
    unfold addOpFilter
    rw [h]
  · intro field op w entries h
    unfold addOpFilter
    rw [h]
    rfl
  · intro field op w n h hz
    unfold addOpFilter
    rw [h]
    have hfal : jsFalsy (Val.vNum n) = false := by
      simp [jsFalsy, hz]
    simp [hfal]
  · intro field op w t h hz
    unfold addOpFilter
    rw [h]
    have hfal : jsFalsy (Val.vStr t) = false := by
      simp [jsFalsy, hz]
    simp [hfal]
  · intro h
    unfold p2FilterStep
    rw [if_pos h]
  · intro h1 h2
    unfold p2FilterStep
    rw [if_neg (by rw [h1]; simp), if_neg (by rw [h2]; simp)]
  · have hfold : ∀ (q2 : Query) (acc : List (String × Val)),
        (∀ kv ∈ q2, reservedFilterKeys.contains kv.1 = true) →
        foldFilterKeys acc q2 = .ok acc := by
      intro q2
      induction q2 with
      | nil => intro acc h; rfl
      | cons kv rest ih =>
        intro acc h
        rw [show foldFilterKeys acc (kv :: rest) =
            (match processFilterKey acc kv.1 kv.2 with
             | .error e => .error e
             | .ok fs2 => foldFilterKeys fs2 rest) from rfl]
        rw [show processFilterKey acc kv.1 kv.2 = .ok acc from by
          unfold processFilterKey
          rw [if_pos (h kv (List.mem_cons_self kv rest))]]
        exact ih _ (fun kv2 h2 => h kv2 (List.mem_cons_of_mem _ h2))
    intro q2 h
    exact hfold q2 [] h

/-- C5 witness at concrete inputs: a reserved key is skipped by each
variant, and an allow-listed operator suffix on a field holding a truthy
primitive raises the strict-mode error. -/
theorem C5_filter_key_rules_witness :
    processFilterKey [] "limit" "9" = .ok []
      ∧ p2FilterStep [] "action" (Val.vStr "x") = .ok []
      ∧ addOpFilter [("x", Val.vNum 1)] "x" "$gt" (Val.vNum 2) = .error () :=
  ⟨(C5_filter_key_rules [] "limit" "9" (Val.vStr "x")).1 rfl,
   (C5_filter_key_rules [] "action" "9" (Val.vStr "x")).2.2.2.2.2.2.2.1 rfl,
   (C5_filter_key_rules [("x", Val.vNum 1)] "x" "9" (Val.vStr "x")).2.2.2.2.2.1
     "x" "$gt" (Val.vNum 2) 1 rfl (by decide)⟩

/-- C6 counterexample: the claim says the assembled limit is always a
positive integer.  A requested limit of "-5" passes `parseInt`, is truthy,
and `Math.min(-5, 1000)` keeps it: the assembled limit is negative. -/
theorem C6_counterexample :
    (parseQueryFilters [("limit", "-5")]).2.limit = -5 ∧ ¬(0 : Int) < -5 := by
  exact ⟨rfl, by decide⟩

/-- C6 (amended): the assembled window always has non-negative skip and a
limit bounded above by the configured maximum 1000; limit and skip take
their defaults (100 and 0) when absent or unparseable; a parsed limit
above the maximum is clamped to the maximum, and a parsed positive limit
stays positive — but a parsed negative limit is kept (only the upper bound
is clamped). -/
theorem C6_pagination_window (q : Query) :
    (0 ≤ (parseQueryFilters q).2.skip)
    ∧ ((parseQueryFilters q).2.limit ≤ 1000)
    ∧ (lookupParam q "limit" = none → (parseQueryFilters q).2.limit = 100)
    ∧ (∀ s, lookupParam q "limit" = some s → jsParseIntOpt s = none →
        (parseQueryFilters q).2.limit = 100)
    ∧ (∀ s n, lookupParam q "limit" = some s → jsParseIntOpt s = some n → 1000 < n →
        (parseQueryFilters q).2.limit = 1000)
    ∧ (∀ s n, lookupParam q "limit" = some s → jsParseIntOpt s = some n → 0 < n →
        0 < (parseQueryFilters q).2.limit)
    ∧ (lookupParam q "skip" = none → (parseQueryFilters q).2.skip = 0)
    ∧ (∀ s, lookupParam q "skip" = some s → jsParseIntOpt s = none →
        (parseQueryFilters q).2.skip = 0) := by
  have hlim : (parseQueryFilters q).2.limit =
      min (falsyOr ((lookupParam q "limit").bind jsParseIntOpt) 100) 1000 := rfl
  have hskip : (parseQueryFilters q).2.skip =
      max (falsyOr ((lookupParam q "skip").bind jsParseIntOpt) 0) 0 := rfl
  refine ⟨?_, ?_, ?_, ?_, ?_, ?_, ?_, ?_⟩
  · rw [hskip]; exact le_max_right _ _
  · rw [hlim]; exact min_le_right _ _
  · intro h
    rw [hlim, h]
    rfl
  · intro s hs hp
    rw [hlim, hs, show Option.bind (some s) jsParseIntOpt = jsParseIntOpt s from rfl, hp]
    rfl
  · intro s n hs hp hgt
    rw [hlim, hs, show Option.bind (some s) jsParseIntOpt = jsParseIntOpt s from rfl, hp]
    have hne : (n == 0) = false := by
      have : n ≠ 0 := by omega
      simp [this]
    simp only [falsyOr, hne, Bool.false_eq_true, if_false]
    exact min_eq_right (by omega)
  · intro s n hs hp hpos
    rw [hlim, hs, show Option.bind (some s) jsParseIntOpt = jsParseIntOpt s from rfl, hp]
    have hne : (n == 0) = false := by
      have : n ≠ 0 := by omega
      simp [this]
    simp only [falsyOr, hne, Bool.false_eq_true, if_false]
    exact lt_min hpos (by norm_num)
  · intro h
    rw [hskip, h]
    rfl
  · intro s hs hp
    rw [hskip, hs, show Option.bind (some s) jsParseIntOpt = jsParseIntOpt s from rfl, hp]
    rfl

/-- C6 witness at a concrete input: an over-large limit clamps. -/
theorem C6_pagination_window_witness :
    (parseQueryFilters [("limit", "5000")]).2.limit = 1000 :=
  (C6_pagination_window [("limit", "5000")]).2.2.2.2.1 "5000" 5000 rfl rfl (by decide)

/-- C7: a collection name that fails the restrictive pattern (a letter
followed by up to 63 letters, digits, hyphens or underscores, after
trimming and lower-casing) or starts with a reserved system name resolves
to `InvalidName`: the handler answers 400 and performs no store operation
for that request, whatever the method or body. -/
theorem C7_invalid_name_never_reaches_store (c method : String) (q : Query)
    (body : Option Val) (db : String → List Doc) (idp act : Option String)
    (now : Val) (hne : c ≠ "")
    (h : matchesCollectionPattern (jsToLower (jsTrim c)) = false ∨
         hasReservedStart (jsToLower (jsTrim c)) = true) :
    sanitizeCollectionName c = none
    ∧ handlerDispatch method ⟨some c, idp, act⟩ q body db now = (.invalidNameR, [])
    ∧ handlerStatus .invalidNameR = 400 := by
  have hb : (c == "") = false := by
    cases hx : c == "" with
    | true => exact absurd (eq_of_beq hx) hne
    | false => rfl
  have hs : sanitizeCollectionName c = none := by
    unfold sanitizeCollectionName
    rw [hb]
    simp only [Bool.false_eq_true, if_false]
    rcases h with h | h
    · simp [h]
    · by_cases hp : matchesCollectionPattern (jsToLower (jsTrim c)) = true
      · simp [hp, h]
      · have hp2 : matchesCollectionPattern (jsToLower (jsTrim c)) = false := by
          cases hx : matchesCollectionPattern (jsToLower (jsTrim c)) with
          | true => exact absurd hx hp
          | false => rfl
        simp [hp2]
  refine ⟨hs, ?_, rfl⟩
  unfold handlerDispatch
  simp [jsTruthyStrOpt, hne, hs]

/-- C7 witness at a concrete invalid name. -/
theorem C7_invalid_name_witness :
    handlerDispatch "GET" ⟨some "bad$name", none, none⟩ [] none (fun _ => [])
        Val.vNull =
      (.invalidNameR, []) :=
  (C7_invalid_name_never_reaches_store "bad$name" "GET" [] none (fun _ => []) none none
    Val.vNull (by decide) (Or.inl (by decide))).2.1

/-- C9: every envelope built by `sendJson` of src/api/data.js satisfies
the invariant: the success flag is true exactly when the status is below
400; at status 400 and above the payload sits under the error field and
the data field is absent; and (as at every call site, which never
overrides the key) the meta block carries the ISO timestamp. -/
theorem C9_envelope_invariant (status : Nat) (payload : Val) (isoNow : String)
    (extraMeta : List (String × Val))
    (hm : ∀ kv ∈ extraMeta, kv.1 ≠ "timestamp") :
    ((sendJson status payload isoNow extraMeta).success = true ↔ status < 400)
    ∧ (400 ≤ status →
        (sendJson status payload isoNow extraMeta).errorField = some payload
        ∧ (sendJson status payload isoNow extraMeta).dataField = none)
    ∧ List.lookup "timestamp" (sendJson status payload isoNow extraMeta).meta =
        some (Val.vStr isoNow) := by
  have hmeta : List.lookup "timestamp"
      (mergeMeta [("timestamp", Val.vStr isoNow)] extraMeta) =
        some (Val.vStr isoNow) := by
    rw [mergeMeta_eq_assignAll,
      lookup_assignAll_not_mem [("timestamp", Val.vStr isoNow)] extraMeta "timestamp" hm]
    simp [lookup_cons_eq]
  unfold sendJson
  by_cases h : status < 400
  · rw [if_pos h]
    exact ⟨iff_of_true rfl h, fun habs => absurd h (by omega), hmeta⟩
  · rw [if_neg h]
    refine ⟨iff_of_false (by simp) h, fun _ => ⟨rfl, rfl⟩, hmeta⟩

/-- C9 witness at a concrete failing status. -/
theorem C9_envelope_witness :
    (sendJson 404 (Val.vStr "nope") "t0" []).errorField = some (Val.vStr "nope")
      ∧ (sendJson 404 (Val.vStr "nope") "t0" []).dataField = none :=
  (C9_envelope_invariant 404 (Val.vStr "nope") "t0" [] (by simp)).2.1 (by omega)

/-- C10: collection-name resolution is case-insensitive — sanitizing a
name and sanitizing its lower-cased form agree for every name, and any two
case-variants of the same valid name resolve to the same sanitized name
and hence the same default model-cache key. -/
theorem C10_case_insensitive_resolution :
    (∀ name : String,
      sanitizeCollectionName name = sanitizeCollectionName (jsToLower name))
    ∧ ∀ n1 n2 s1 s2 : String, jsToLower n1 = jsToLower n2 →
        sanitizeCollectionName n1 = some s1 → sanitizeCollectionName n2 = some s2 →
        s1 = s2 ∧ modelCacheKey s1 false = modelCacheKey s2 false := by
  refine ⟨sanitize_lower_invariant, ?_⟩
  intro n1 n2 s1 s2 heq h1 h2
  have hsame : sanitizeCollectionName n1 = sanitizeCollectionName n2 := by
    rw [sanitize_lower_invariant n1, sanitize_lower_invariant n2, heq]
  rw [h1, h2] at hsame
  obtain rfl := Option.some.inj hsame
  exact ⟨rfl, rfl⟩

/-- C10 witness at two concrete case-variants of the same name. -/
theorem C10_case_insensitive_witness :
    ("menu" : String) = "menu" ∧ modelCacheKey "menu" false = modelCacheKey "menu" false :=
  C10_case_insensitive_resolution.2 "Menu" "MENU" "menu" "menu" (by decide)
    (by decide) (by decide)

end RestaurantApi
